import Mathlib

/-!
Verification development for the TreeLine field-formatting core
(src/source/fieldformat.py, src/source/nodeformat.py, src/source/treenode.py).

The Python classes are shallowly embedded as Lean functions over `String`
(internally `List Char`).  Methods that may raise `ValueError` are embedded
as `Option`-valued functions (`none` means the exception is raised).
The standard-library helpers used by the source are modelled as follows:

* `xml.sax.saxutils.escape` / `unescape` (default entity maps): `escape`
  replaces each of the characters &, <, > with its entity; this per-character
  expansion agrees with the chained left-to-right str.replace calls of the
  library because no replacement string contains a character that a later
  pass rewrites.  `unescape` is a left-to-right scan decoding the three
  entities, which agrees with the library's chained replaces since the
  entities are pairwise non-overlapping and the replacement characters
  cannot create a new entity occurrence.
* Python `str.strip` is `pyStrip` (drops ASCII whitespace at both ends),
  `str.split(sep)` for a one-character separator is `pySplitCh`,
  `str.replace` instances with one-character patterns are character maps,
  and `str.replace(sep+sep, NUL)` is the left-to-right scanner `dblToNul`.
* `re` patterns are modelled only in the fragments the source builds:
  the anchored-at-start semantics of `re.match` is captured by matchers
  that succeed as soon as the pattern is exhausted, leaving any remaining
  input unconsumed (a prefix match, exactly like `re.match`).
-/

namespace TreeLine

/-- The NUL character used by ChoiceField.splitText as a temporary
placeholder for a doubled separator. -/
def nulChar : Char := Char.ofNat 0

/-- Python ASCII whitespace as stripped by str.strip (the inputs treated in
this development contain no non-ASCII whitespace). -/
def isPySpace (c : Char) : Bool :=
  c = ' ' || c = '\t' || c = '\n' || c = '\r' || c = Char.ofNat 11 || c = Char.ofNat 12

/-- Model of Python str.strip: remove leading and trailing whitespace. -/
def pyStrip (l : List Char) : List Char :=
  List.rdropWhile isPySpace (l.dropWhile isPySpace)

/-- Expansion of one character under xml.sax.saxutils.escape. -/
def escChar (c : Char) : List Char :=
  if c = '&' then ['&', 'a', 'm', 'p', ';']
  else if c = '<' then ['&', 'l', 't', ';']
  else if c = '>' then ['&', 'g', 't', ';']
  else [c]

/-- Model of xml.sax.saxutils.escape on character lists. -/
def escL (l : List Char) : List Char :=
  (l.map escChar).flatten

/-- Model of xml.sax.saxutils.unescape on character lists: left-to-right
scan decoding the three default entities. -/
def unescL : List Char → List Char
  | [] => []
  | c :: r =>
    if c = '&' then
      match r with
      | 'a' :: 'm' :: 'p' :: ';' :: r2 => '&' :: unescL r2
      | 'l' :: 't' :: ';' :: r2 => '<' :: unescL r2
      | 'g' :: 't' :: ';' :: r2 => '>' :: unescL r2
      | other => c :: unescL other
    else c :: unescL r

/-- Model of xml.sax.saxutils.escape on strings. -/
def escape (s : String) : String := ⟨escL s.data⟩

/-- Model of xml.sax.saxutils.unescape on strings. -/
def unescape (s : String) : String := ⟨unescL s.data⟩

/-- Model of Python str.split for a one-character separator: splits at every
occurrence of the separator, keeping empty pieces. -/
def pySplitCh (sep : Char) (l : List Char) : List (List Char) :=
  l.splitOn sep

/-- Model of Python textStr.replace(sep+sep, NUL): left-to-right replacement
of non-overlapping doubled separators by the NUL placeholder. -/
def dblToNul (sep : Char) : List Char → List Char
  | [] => []
  | [c] => [c]
  | a :: b :: r =>
    if a = sep ∧ b = sep then nulChar :: dblToNul sep r
    else a :: dblToNul sep (b :: r)

/-- Model of Python text.replace(NUL, sep) (one-character pattern). -/
def nulToSep (sep : Char) (l : List Char) : List Char :=
  l.map fun c => if c = nulChar then sep else c

/-- Model of Python text.replace(sep, sep+sep) (doubling every separator,
used by CombinationField.joinText). -/
def sepToDbl (sep : Char) (l : List Char) : List Char :=
  (l.map fun c => if c = sep then [sep, sep] else [c]).flatten

/-- Helper for removeMarkup: the suffix after the first closing angle
bracket, or none if there is no closing bracket (in which case the
non-greedy tag regex has no match starting at the opening bracket). -/
def afterGt : List Char → Option (List Char)
  | [] => none
  | '>' :: r => some r
  | _ :: r => afterGt r

/-- Fuelled scanner for re.sub with the non-greedy tag pattern of
fieldformat.removeMarkup: every shortest bracketed tag is deleted.  The
fuel argument strictly exceeds the input length, so it is never
exhausted (each step consumes at least one input character). -/
def stripTagsF : Nat → List Char → List Char
  | 0, s => s
  | _ + 1, [] => []
  | f + 1, '<' :: r =>
    match afterGt r with
    | some r2 => stripTagsF f r2
    | none => '<' :: stripTagsF f r
  | f + 1, c :: r => c :: stripTagsF f r

/-- Model of fieldformat.removeMarkup: strip all tags, then unescape
entities. -/
def removeMarkup (s : String) : String :=
  ⟨unescL (stripTagsF (s.data.length + 1) s.data)⟩

/-- Model of Python str.lower restricted to ASCII (the source feeds it
field data; non-ASCII case folding is irrelevant to the claims). -/
def pyLower (s : String) : String := ⟨s.data.map Char.toLower⟩

/-- The fixed error marker substituted by rendering paths
(fieldformat._errorStr). -/
def errorStr : String := "#####"

/-- Python string comparison (used on sort-key type ranks): strict
lexicographic order on code points. -/
def pyStrLtB : List Char → List Char → Bool
  | [], [] => false
  | [], _ :: _ => true
  | _ :: _, [] => false
  | a :: as, b :: bs =>
    if a = b then pyStrLtB as bs else decide (a < b)

/-- Data dictionaries of tree nodes: association lists with Python dict
update semantics (an existing key keeps its position, a new key is
appended). -/
abbrev Data := List (String × String)

/-- Model of node.data.get(name, ''). -/
def dataGet (d : Data) (k : String) : String :=
  match d.find? fun p => p.1 == k with
  | some p => p.2
  | none => ""

/-- Model of data[k] = v on a Python dict. -/
def dataSet (d : Data) (k v : String) : Data :=
  if d.any fun p => p.1 == k then
    d.map fun p => if p.1 == k then (k, v) else p
  else
    d ++ [(k, v)]

/-! ### Literal services (gennumber / genboolean)

The modules gennumber.py and genboolean.py belong to this repository but
are not under src/; the spec treats them as opaque literal services that
parse a value against a pattern and fail with an error on mismatch.  They
are modelled minimally below, per the spec's words. -/

/-- Canonical digit sequence: leading zeros removed, a lone zero kept. -/
def canonDigits (l : List Char) : List Char :=
  match l.dropWhile fun c => c = '0' with
  | [] => ['0']
  | d => d

/-- Modelled from the spec: the NumericLiteral service (gennumber.GenNumber).
Called on a string, it parses a numeric literal and raises ValueError on a
mismatch; modelled as signed decimal integers held in canonical string
form (the pattern mini-language of the format spec is out of the spec's
scope and is not interpreted by the model). -/
def numParseL : List Char → Option (List Char)
  | [] => none
  | c :: ds =>
    if c = '-' then
      if ds ≠ [] ∧ ds.all Char.isDigit then
        some (if canonDigits ds = ['0'] then ['0'] else '-' :: canonDigits ds)
      else none
    else if (c :: ds).all Char.isDigit then some (canonDigits (c :: ds))
    else none

/-- String form of the NumericLiteral model, covering both
repr(GenNumber(...)) and GenNumber(...).numStr(format): the canonical
decimal rendering of the parsed value. -/
def numParse (s : String) : Option String :=
  (numParseL s.data).map fun l => ⟨l⟩

/-- Numeric value of the NumericLiteral model (GenNumber(...).num),
used for comparisons; evaluated from the canonical string. -/
def numValL : List Char → Int
  | '-' :: ds => -(ds.foldl (fun a c => 10 * a + (c.toNat - 48)) 0 : Int)
  | ds => (ds.foldl (fun a c => 10 * a + (c.toNat - 48)) 0 : Int)

/-- Modelled from the spec: the BooleanLiteral service's format spec is a
true/false token pair such as yes/no, split on the slash. -/
def boolTokens (fmt : String) : List (List Char) :=
  pySplitCh '/' fmt.data

/-- Modelled from the spec: GenBoolean().setFromStr(text, fmt), the
spec-guided parse that recognises exactly the format's token pair. -/
def boolSetFromStr (text : String) (fmt : String) : Option Bool :=
  match boolTokens fmt with
  | tt :: ff :: _ =>
    if text.data = tt then some true
    else if text.data = ff then some false
    else none
  | _ => none

/-- Modelled from the spec: GenBoolean(text), the spec-free boolean parse
used as a fallback; recognises the canonical true/false spellings (and
the yes/no pair), case-insensitively. -/
def boolSpecFree (text : String) : Option Bool :=
  let l := (pyLower text).data
  if l = ['t', 'r', 'u', 'e'] ∨ l = ['y', 'e', 's'] then some true
  else if l = ['f', 'a', 'l', 's', 'e'] ∨ l = ['n', 'o'] then some false
  else none

/-- Modelled from the spec: repr(GenBoolean(...)), the stored spelling of
a boolean value. -/
def boolRepr (b : Bool) : String :=
  if b then "true" else "false"

/-- Modelled from the spec: GenBoolean(...).boolStr(fmt) renders the value
with the format's token pair, raising ValueError on a malformed format. -/
def boolStr (b : Bool) (fmt : String) : Option String :=
  match boolTokens fmt with
  | tt :: ff :: _ => some (if b then ⟨tt⟩ else ⟨ff⟩)
  | _ => none

/-! ### TextField and its HTML/one-line/spaced variants -/

namespace TextField

/-- TextField.formatOutput: wrap the stored text in prefix and suffix,
stripping markup in title mode and escaping prefix/suffix when HTML
formatting is off.  The prefixStr/suffixStr arguments are the field's
prefix and suffix attributes. -/
def formatOutput (prefixStr suffixStr storedText : String)
    (titleMode formatHtml : Bool) : String :=
  if titleMode then
    if formatHtml then
      removeMarkup prefixStr ++ removeMarkup storedText ++ removeMarkup suffixStr
    else
      prefixStr ++ removeMarkup storedText ++ suffixStr
  else if formatHtml then
    prefixStr ++ storedText ++ suffixStr
  else
    escape prefixStr ++ storedText ++ escape suffixStr

/-- TextField.formatEditorText: the default text field returns the stored
text unchanged (never raises). -/
def formatEditorText (storedText : String) : Option String :=
  some storedText

/-- TextField.storedText: the default text field returns the editor text
unchanged (never raises). -/
def storedText (editorText : String) : Option String :=
  some editorText

/-- TextField.storedTextFromTitle: escape the title text, then store it. -/
def storedTextFromTitle (titleText : String) : Option String :=
  storedText (escape titleText)

/-- TextField.compareValue: markup-stripped, lower-cased stored text. -/
def compareValue (name : String) (d : Data) : String :=
  pyLower (removeMarkup (dataGet d name))

end TextField

namespace HtmlTextField

/-- HtmlTextField.storedTextFromTitle: store the title text directly,
without escaping. -/
def storedTextFromTitle (titleText : String) : Option String :=
  TextField.storedText titleText

end HtmlTextField

namespace OneLineTextField

/-- Truncation at the first line-break marker: Python
storedText.split(LINEBREAK, 1)[0] where LINEBREAK is the br tag. -/
def truncBrL : List Char → List Char
  | [] => []
  | '<' :: 'b' :: 'r' :: ' ' :: '/' :: '>' :: _ => []
  | c :: r => c :: truncBrL r

/-- String form of the line-break truncation. -/
def truncBr (s : String) : String := ⟨truncBrL s.data⟩

/-- OneLineTextField.formatEditorText: return only the first line of the
stored text. -/
def formatEditorText (storedText : String) : Option String :=
  some (truncBr storedText)

/-- OneLineTextField.storedText is inherited unchanged from TextField. -/
def storedText (editorText : String) : Option String :=
  TextField.storedText editorText

/-- OneLineTextField.formatOutput: truncate to the first line, then wrap
like the base class. -/
def formatOutput (prefixStr suffixStr storedText : String)
    (titleMode formatHtml : Bool) : String :=
  TextField.formatOutput prefixStr suffixStr (truncBr storedText) titleMode formatHtml

end OneLineTextField

namespace SpacedTextField

/-- SpacedTextField.formatEditorText: unescape the stored text. -/
def formatEditorText (storedText : String) : Option String :=
  some (unescape storedText)

/-- SpacedTextField.storedText: escape the editor text. -/
def storedText (editorText : String) : Option String :=
  some (escape editorText)

/-- SpacedTextField.storedTextFromTitle: store the title text (escaping it
via storedText). -/
def storedTextFromTitle (titleText : String) : Option String :=
  storedText titleText

end SpacedTextField

/-! ### NumberField -/

namespace NumberField

/-- NumberField.formatEditorText: empty stays empty, otherwise the stored
text is parsed by the numeric literal service and re-rendered (ValueError
on mismatch becomes none). -/
def formatEditorText (storedText : String) : Option String :=
  if storedText = "" then some "" else numParse storedText

/-- NumberField.storedText: empty stays empty, otherwise the editor text
is parsed by the numeric literal service and its repr is stored. -/
def storedText (editorText : String) : Option String :=
  if editorText = "" then some "" else numParse editorText

/-- NumberField.formatOutput: render the stored number, substituting the
fixed error marker if the literal service raises, then wrap like the base
class. -/
def formatOutput (prefixStr suffixStr fmt storedText : String)
    (titleMode formatHtml : Bool) : String :=
  let _ := fmt
  let text := match numParse storedText with
    | some t => t
    | none => errorStr
  TextField.formatOutput prefixStr suffixStr text titleMode formatHtml

/-- NumberField.compareValue: the numeric value, or 0 when the stored text
is not a number. -/
def compareValue (name : String) (d : Data) : Int :=
  match numParseL (dataGet d name).data with
  | some c => numValL c
  | none => 0

end NumberField

/-! ### ChoiceField -/

namespace ChoiceField

/-- One step of the accumulation loop of ChoiceField.splitText: strip the
piece, restore the separator, and append unless empty or already seen. -/
def dedupStep (sep : Char) (result : List (List Char)) (t : List Char) :
    List (List Char) :=
  let t := nulToSep sep (pyStrip t)
  if t ≠ [] ∧ t ∉ result then result ++ [t] else result

/-- ChoiceField.splitText on character lists: replace doubled separators
with the NUL placeholder, split on the separator, strip each piece and
restore the separator, dropping empty pieces and duplicates while keeping
first-seen order. -/
def splitTextL (sep : Char) (textStr : List Char) : List (List Char) :=
  (pySplitCh sep (dblToNul sep textStr)).foldl (dedupStep sep) []

/-- ChoiceField.splitText on strings, with the class's editSep. -/
def splitText (textStr : String) : List String :=
  (splitTextL '/' textStr.data).map fun l => ⟨l⟩

/-- ChoiceField.setFormat derived state: the ordered choice list parsed
from the format. -/
def choiceList (fmt : String) : List String :=
  splitText fmt

/-- ChoiceField.setFormat derived state: the valid stored values (escaped
unless evalHtml). -/
def choices (fmt : String) (evalHtml : Bool) : List String :=
  if evalHtml then choiceList fmt else (choiceList fmt).map escape

/-- ChoiceField.formatEditorText: a non-empty stored value must be a
member of the choice set; the editor sees the unescaped text unless
evalHtml. -/
def formatEditorText (fmt : String) (evalHtml : Bool) (storedText : String) :
    Option String :=
  if storedText ≠ "" ∧ storedText ∉ choices fmt evalHtml then none
  else if evalHtml then some storedText
  else some (unescape storedText)

/-- ChoiceField.storedText: escape the editor text unless evalHtml; accept
it when empty or a member of the choice set. -/
def storedText (fmt : String) (evalHtml : Bool) (editorText : String) :
    Option String :=
  let e := if evalHtml then editorText else escape editorText
  if e = "" ∨ e ∈ choices fmt evalHtml then some e else none

/-- ChoiceField.formatOutput: a stored value outside the choice set is
replaced by the fixed error marker; then wrap like the base class. -/
def formatOutput (prefixStr suffixStr fmt : String) (evalHtml : Bool)
    (storedText : String) (titleMode formatHtml : Bool) : String :=
  let text := if storedText ∈ choices fmt evalHtml then storedText else errorStr
  TextField.formatOutput prefixStr suffixStr text titleMode formatHtml

end ChoiceField

/-! ### CombinationField -/

namespace CombinationField

/-- CombinationField.setFormat derived state: the format is escaped first
(unless evalHtml) and then split; choices is the same list viewed as a
set. -/
def choiceList (fmt : String) (evalHtml : Bool) : List String :=
  ChoiceField.splitText (if evalHtml then fmt else escape fmt)

/-- CombinationField.joinText: join with the separator, doubling any
separator inside an item. -/
def joinText (textList : List String) : String :=
  ⟨List.intercalate ['/'] (textList.map fun t => sepToDbl '/' t.data)⟩

/-- CombinationField.sortedSelections: split the input, keep the declared
choices that occur in it (declared order), and report validity (all
selections declared). -/
def sortedSelections (fmt : String) (evalHtml : Bool) (inText : String) :
    List String × Bool :=
  let selections := ChoiceField.splitText inText
  let result := (choiceList fmt evalHtml).filter fun c => c ∈ selections
  (result, selections.length == result.length)

/-- CombinationField.storedText: escape unless evalHtml, require all
selections to be declared choices, and re-serialize them in the canonical
declared order. -/
def storedText (fmt : String) (evalHtml : Bool) (editorText : String) :
    Option String :=
  let e := if evalHtml then editorText else escape editorText
  let sv := sortedSelections fmt evalHtml e
  if sv.2 then some (joinText sv.1) else none

/-- CombinationField.formatEditorText: the stored selections must be a
subset of the declared choices; the editor sees the unescaped text unless
evalHtml. -/
def formatEditorText (fmt : String) (evalHtml : Bool) (storedText : String) :
    Option String :=
  let selections := ChoiceField.splitText storedText
  if selections.all fun s => s ∈ choiceList fmt evalHtml then
    if evalHtml then some storedText else some (unescape storedText)
  else none

/-- CombinationField.formatOutput: join the sorted selections with the
owning format's output separator, or substitute the fixed error marker
when some selection is not a declared choice. -/
def formatOutput (prefixStr suffixStr fmt : String) (evalHtml : Bool)
    (outputSep storedText : String) (titleMode formatHtml : Bool) : String :=
  let sv := sortedSelections fmt evalHtml storedText
  let result := if sv.2 then String.intercalate outputSep sv.1 else errorStr
  TextField.formatOutput prefixStr suffixStr result titleMode formatHtml

end CombinationField

/-! ### BooleanField -/

namespace BooleanField

/-- BooleanField.formatEditorText: empty stays empty, otherwise the stored
text is parsed spec-free and rendered with the format's token pair. -/
def formatEditorText (fmt : String) (storedText : String) : Option String :=
  if storedText = "" then some ""
  else (boolSpecFree storedText).bind fun b => boolStr b fmt

/-- BooleanField.storedText: empty stays empty, otherwise try the
format-guided parse and fall back to the spec-free parse, storing the
repr of the value. -/
def storedText (fmt : String) (editorText : String) : Option String :=
  if editorText = "" then some ""
  else
    match boolSetFromStr editorText fmt with
    | some b => some (boolRepr b)
    | none => (boolSpecFree editorText).map boolRepr

/-- BooleanField.formatOutput: render the stored boolean with the format's
token pair, substituting the fixed error marker if parsing or rendering
raises; then wrap like the base class. -/
def formatOutput (prefixStr suffixStr fmt storedText : String)
    (titleMode formatHtml : Bool) : String :=
  let text := match (boolSpecFree storedText).bind fun b => boolStr b fmt with
    | some t => t
    | none => errorStr
  TextField.formatOutput prefixStr suffixStr text titleMode formatHtml

/-- BooleanField.compareValue: the boolean value, or False when the stored
text is not a valid boolean. -/
def compareValue (name : String) (d : Data) : Bool :=
  match boolSpecFree (dataGet d name) with
  | some b => b
  | none => false

end BooleanField

/-! ### A mini regular-expression engine

RegularExpressionField delegates matching to re.match, which anchors the
pattern at position 0 and succeeds as soon as the pattern is exhausted,
leaving any remaining input unconsumed.  The fragment embedded here covers
literal characters, the dot, and the star quantifier, which suffices for
the patterns the claims exercise; acceptance for this fragment coincides
with re.match acceptance. -/

/-- Atoms of the regex fragment: a literal character or the dot. -/
inductive RAtom where
  | lit : Char → RAtom
  | dot : RAtom
deriving DecidableEq

/-- Tokens of the regex fragment: an atom or a starred atom. -/
inductive RTok where
  | once : RAtom → RTok
  | star : RAtom → RTok
deriving DecidableEq

/-- Whether an atom matches one character. -/
def atomMatch : RAtom → Char → Bool
  | RAtom.lit c, d => c = d
  | RAtom.dot, _ => true

/-- Fuelled acceptance test with re.match semantics: an exhausted pattern
accepts (prefix match).  Every recursive call shortens the pattern or the
input, so fuel exceeding their combined length is never exhausted. -/
def reMatchF : Nat → List RTok → List Char → Bool
  | 0, _, _ => false
  | _ + 1, [], _ => true
  | _ + 1, RTok.once _ :: _, [] => false
  | f + 1, RTok.once a :: ts, c :: cs => atomMatch a c && reMatchF f ts cs
  | f + 1, RTok.star a :: ts, s =>
    reMatchF f ts s ||
      match s with
      | [] => false
      | c :: cs => atomMatch a c && reMatchF f (RTok.star a :: ts) cs

/-- Acceptance of the regex fragment on a string, with adequate fuel. -/
def reMatch (toks : List RTok) (s : String) : Bool :=
  reMatchF (toks.length + s.data.length + 1) toks s.data

/-- Characters the fragment's parser treats as literals (everything except
the specials of the re syntax; patterns using other specials are outside
the embedded fragment). -/
def rPlainChar (c : Char) : Bool :=
  ¬ (c = '.' || c = '*' || c = '+' || c = '?' || c = '^' || c = '$' ||
     c = '(' || c = ')' || c = '[' || c = ']' || c = '|' || c = '\\')

/-- Parser for the regex fragment: a star applies to the preceding atom.
The accumulator is kept reversed. -/
def parseRegexAux : List RTok → List Char → Option (List RTok)
  | acc, [] => some acc.reverse
  | acc, '*' :: r =>
    match acc with
    | RTok.once a :: acc2 => parseRegexAux (RTok.star a :: acc2) r
    | _ => none
  | acc, '.' :: r => parseRegexAux (RTok.once RAtom.dot :: acc) r
  | acc, c :: r =>
    if rPlainChar c then parseRegexAux (RTok.once (RAtom.lit c) :: acc) r
    else none

/-- Compilation of a format string in the regex fragment (re.compile in
RegularExpressionField.setFormat; none means the format is outside the
fragment). -/
def parseRegex (fmt : String) : Option (List RTok) :=
  parseRegexAux [] fmt.data

namespace RegularExpressionField

/-- RegularExpressionField.storedText: accept empty input or input the
format matches from position 0 (prefix match), escaping the stored form
unless evalHtml.  The field carries its compiled format, which setFormat
guarantees to exist. -/
def storedText (toks : List RTok) (evalHtml : Bool) (editorText : String) :
    Option String :=
  if editorText = "" ∨ reMatch toks editorText then
    if evalHtml then some editorText else some (escape editorText)
  else none

/-- RegularExpressionField.formatEditorText: unescape unless evalHtml,
then accept empty text or text the format matches from position 0. -/
def formatEditorText (toks : List RTok) (evalHtml : Bool)
    (storedText : String) : Option String :=
  let s := if evalHtml then storedText else unescape storedText
  if s = "" ∨ reMatch toks s then some s else none

/-- RegularExpressionField.formatOutput: a non-empty stored text that the
format does not match (after unescaping) renders as the fixed error
marker; then wrap like the base class. -/
def formatOutput (prefixStr suffixStr : String) (toks : List RTok)
    (storedText : String) (titleMode formatHtml : Bool) : String :=
  let text :=
    if storedText = "" ∨ reMatch toks (unescape storedText) then storedText
    else errorStr
  TextField.formatOutput prefixStr suffixStr text titleMode formatHtml

end RegularExpressionField

/-! ### Sort keys -/

/-- The second component of a sort key: the per-variant compareValue. -/
inductive SortVal where
  | num : Int → SortVal
  | bool : Bool → SortVal
  | str : String → SortVal
deriving DecidableEq

/-- Comparison of sort-key values within one variant (Python comparison of
the compareValue payloads; heterogeneous payloads never need comparing
because the type ranks already differ). -/
def sortValLtB : SortVal → SortVal → Bool
  | SortVal.num a, SortVal.num b => decide (a < b)
  | SortVal.bool a, SortVal.bool b => !a && b
  | SortVal.str a, SortVal.str b => pyStrLtB a.data b.data
  | _, _ => false

/-- TextField.sortKey: fixed rank 80_text with the text compareValue. -/
def textSortKey (name : String) (d : Data) : String × SortVal :=
  ("80_text", SortVal.str (TextField.compareValue name d))

/-- NumberField.sortKey: fixed rank 20_num with the numeric compareValue. -/
def numberSortKey (name : String) (d : Data) : String × SortVal :=
  ("20_num", SortVal.num (NumberField.compareValue name d))

/-- BooleanField.sortKey: fixed rank 30_bool with the boolean
compareValue. -/
def boolSortKey (name : String) (d : Data) : String × SortVal :=
  ("30_bool", SortVal.bool (BooleanField.compareValue name d))

/-- Python tuple comparison on sort keys: compare the rank strings first,
then the values. -/
def sortKeyLtB (a b : String × SortVal) : Bool :=
  pyStrLtB a.1.data b.1.data || (a.1 == b.1 && sortValLtB a.2 b.2)

/-! ### Fields as a tagged union, and NodeFormat title extraction -/

/-- The field variants of fieldformat.py as a tagged union.  Each case
carries the field name and the per-variant format state (the regex
variant carries its compiled format, which setFormat guarantees). -/
inductive Field where
  | text : String → Field
  | htmlText : String → Field
  | oneLine : String → Field
  | spaced : String → Field
  | number : String → String → Field
  | boolean : String → String → Field
  | choice : String → String → Bool → Field
  | combination : String → String → Bool → Field
  | regex : String → List RTok → Bool → Field
deriving DecidableEq

/-- The name attribute of a field. -/
def Field.name : Field → String
  | Field.text n => n
  | Field.htmlText n => n
  | Field.oneLine n => n
  | Field.spaced n => n
  | Field.number n _ => n
  | Field.boolean n _ => n
  | Field.choice n _ _ => n
  | Field.combination n _ _ => n
  | Field.regex n _ _ => n

/-- storedTextFromTitle dispatched over the variants, following the
Python method-resolution order: TextField and OneLineText escape the
title text first; HtmlTextField and every class derived from it store
the title text directly; SpacedTextField escapes via its storedText. -/
def Field.storedTextFromTitle : Field → String → Option String
  | Field.text _, t => TextField.storedTextFromTitle t
  | Field.oneLine _, t => TextField.storedTextFromTitle t
  | Field.htmlText _, t => HtmlTextField.storedTextFromTitle t
  | Field.spaced _, t => SpacedTextField.storedTextFromTitle t
  | Field.number _ _, t => NumberField.storedText t
  | Field.boolean _ fmt, t => BooleanField.storedText fmt t
  | Field.choice _ fmt ev, t => ChoiceField.storedText fmt ev t
  | Field.combination _ fmt ev, t => CombinationField.storedText fmt ev t
  | Field.regex _ toks ev, t => RegularExpressionField.storedText toks ev t

/-- A parsed title-line segment of a NodeFormat: a field reference or a
literal text separator. -/
inductive Seg where
  | fld : Field → Seg
  | lit : String → Seg
deriving DecidableEq

/-- A NodeFormat restricted to the state extractTitleData reads: its name
and the parsed title line. -/
structure NodeFormat where
  name : String
  titleLine : List Seg
deriving DecidableEq

/-- A segment of the regex pattern extractTitleData builds: a capturing
group for a field or an (escaped) literal.  re.escape only suppresses
meta-characters, so a literal pattern segment matches exactly its text. -/
inductive PSeg where
  | group : PSeg
  | lit : List Char → PSeg
deriving DecidableEq

/-- The pattern extractTitleData builds from the title line: each field
segment becomes a capturing group, each literal segment its escaped
text. -/
def buildPattern (segs : List Seg) : List PSeg :=
  segs.map fun seg =>
    match seg with
    | Seg.fld _ => PSeg.group
    | Seg.lit s => PSeg.lit s.data

/-- The field segments of the title line, in order. -/
def fieldsOf (segs : List Seg) : List Field :=
  segs.foldr
    (fun seg acc =>
      match seg with
      | Seg.fld f => f :: acc
      | Seg.lit _ => acc)
    []

/-- The concatenated literal text of the title line (extraText in
extractTitleData). -/
def extraTextOf (segs : List Seg) : List Char :=
  segs.foldr
    (fun seg acc =>
      match seg with
      | Seg.fld _ => acc
      | Seg.lit s => s.data ++ acc)
    []

/-- Greedy search for a capturing group: try the longest split of the
input whose remainder the continuation accepts, mirroring the
backtracking of a greedy group in the re engine. -/
def grpSearch (k : List Char → Option (List (List Char))) :
    List Char → Option (List Char × List (List Char))
  | [] => (k []).map fun gs => ([], gs)
  | c :: cs =>
    match grpSearch k cs with
    | some (g, gs) => some (c :: g, gs)
    | none => (k (c :: cs)).map fun gs => ([], gs)

/-- Fuelled matcher for patterns of alternating literals and greedy
capturing groups, with re.match semantics (anchored at the start, free to
leave a remainder).  Returns the captured groups.  One unit of fuel is
spent per pattern segment, so fuel exceeding the segment count is never
exhausted. -/
def matchF : Nat → List PSeg → List Char → Option (List (List Char))
  | 0, _, _ => none
  | _ + 1, [], _ => some []
  | f + 1, PSeg.lit l :: rest, s =>
    if l.isPrefixOf s then matchF f rest (s.drop l.length) else none
  | f + 1, PSeg.group :: rest, s =>
    (grpSearch (matchF f rest) s).map fun p => p.1 :: p.2

/-- re.match of a built pattern against a title string (with adequate
fuel). -/
def matchSegs (segs : List PSeg) (s : List Char) : Option (List (List Char)) :=
  matchF (segs.length + 1) segs s

/-- Fuelled matcher requiring the pattern to consume the entire input
(re.fullmatch semantics); used to state that a pattern has no full match
while re.match still succeeds. -/
def matchFullF : Nat → List PSeg → List Char → Option (List (List Char))
  | 0, _, _ => none
  | _ + 1, [], s => if s = [] then some [] else none
  | f + 1, PSeg.lit l :: rest, s =>
    if l.isPrefixOf s then matchFullF f rest (s.drop l.length) else none
  | f + 1, PSeg.group :: rest, s =>
    (grpSearch (matchFullF f rest) s).map fun p => p.1 :: p.2

/-- Full-match variant of matchSegs. -/
def matchSegsFull (segs : List PSeg) (s : List Char) :
    Option (List (List Char)) :=
  matchFullF (segs.length + 1) segs s

/-- The text a successful match consumed: literals and captured groups
interleaved in pattern order. -/
def consumedOf : List PSeg → List (List Char) → List Char
  | [], _ => []
  | PSeg.lit l :: rest, gs => l ++ consumedOf rest gs
  | PSeg.group :: rest, g :: gs => g ++ consumedOf rest gs
  | PSeg.group :: _, [] => []

/-- The conversion loop of the match branch of extractTitleData: convert
each captured group with its field's storedTextFromTitle and write it
into the data dictionary as it goes; a ValueError aborts, leaving the
writes already made. -/
def convertLoop : List (Field × String) → Data → Bool × Data
  | [], d => (true, d)
  | (f, g) :: rest, d =>
    match f.storedTextFromTitle g with
    | some t => convertLoop rest (dataSet d f.name t)
    | none => (false, d)

/-- The writes made by a run of successful conversions (used to describe
the dictionary state after a partial conversion loop). -/
def applyWrites (pairs : List (Field × String)) (d : Data) : Data :=
  pairs.foldl
    (fun acc p =>
      match p.1.storedTextFromTitle p.2 with
      | some t => dataSet acc p.1.name t
      | none => acc)
    d

/-- NodeFormat.extractTitleData: build the pattern from the title line and
re.match it against the title string; on a match convert and write each
captured group, on a mismatch with whitespace-only literal text fall back
to assigning the whole title to the first field and clearing the rest;
report success as a boolean, with any writes already made kept in the
returned dictionary.  The result is none only where the Python code would
raise an uncaught IndexError (no field segments on the fallback path). -/
def extractTitleData (nf : NodeFormat) (titleString : String) (d : Data) :
    Option (Bool × Data) :=
  let fields := fieldsOf nf.titleLine
  let pattern := buildPattern nf.titleLine
  let extraText := extraTextOf nf.titleLine
  match matchSegs pattern titleString.data with
  | some gs => some (convertLoop (fields.zip (gs.map fun g => (⟨g⟩ : String))) d)
  | none =>
    if pyStrip extraText = [] then
      match fields with
      | [] => none
      | f0 :: rest =>
        match f0.storedTextFromTitle titleString with
        | some t =>
          some (true, rest.foldl (fun acc f => dataSet acc f.name "")
                        (dataSet d f0.name t))
        | none => some (false, d)
    else some (false, d)

/-! ### Helper lemmas on the string primitives -/

theorem escL_cons (c : Char) (l : List Char) :
    escL (c :: l) = escChar c ++ escL l := by
  simp [escL]

theorem unescL_cons_ne (c : Char) (t : List Char) (h : c ≠ '&') :
    unescL (c :: t) = c :: unescL t := by
  rw [unescL.eq_def]
  simp [h]

theorem escChar_ne_amp (c : Char) : '&' ∉ (escChar c).tail := by
  unfold escChar
  split
  · simp
  · split
    · simp
    · split <;> simp

theorem unescL_escL (l : List Char) : unescL (escL l) = l := by
  induction l with
  | nil => rfl
  | cons c l ih =>
    rw [escL_cons]
    by_cases ha : c = '&'
    · subst ha
      simp [escChar, unescL, ih]
    · by_cases hl : c = '<'
      · subst hl
        simp [escChar, unescL, ih]
      · by_cases hg : c = '>'
        · subst hg
          simp [escChar, unescL, ih]
        · simp only [escChar, if_neg ha, if_neg hl, if_neg hg, List.cons_append,
            List.nil_append]
          rw [unescL_cons_ne c _ ha, ih]

theorem unescape_escape (s : String) : unescape (escape s) = s := by
  cases s with
  | mk l => simp [escape, unescape, unescL_escL]

theorem escChar_ne_nil (c : Char) : escChar c ≠ [] := by
  unfold escChar
  split
  · simp
  · split
    · simp
    · split <;> simp

theorem escL_eq_nil_iff (l : List Char) : escL l = [] ↔ l = [] := by
  cases l with
  | nil => simp [escL]
  | cons c r =>
    simp only [escL_cons]
    constructor
    · intro h
      exact absurd (List.append_eq_nil.mp h).1 (escChar_ne_nil c)
    · intro h
      exact absurd h (by simp)

theorem escape_eq_empty_iff (s : String) : escape s = "" ↔ s = "" := by
  cases s with
  | mk l =>
    constructor
    · intro h
      have : escL l = [] := by
        have := congrArg String.data h
        simpa [escape] using this
      simp [(escL_eq_nil_iff l).mp this]
    · intro h
      have : l = [] := by
        have := congrArg String.data h
        simpa using this
      simp [this, escape, escL]

theorem unescL_ne_nil (l : List Char) (h : l ≠ []) : unescL l ≠ [] := by
  cases l with
  | nil => exact absurd rfl h
  | cons c r =>
    unfold unescL
    split
    · split <;> simp
    · simp

theorem unescape_ne_empty (s : String) (h : s ≠ "") : unescape s ≠ "" := by
  cases s with
  | mk l =>
    intro hc
    have hl : l ≠ [] := by
      intro he
      exact h (by simp [he])
    have : unescL l = [] := by
      have := congrArg String.data hc
      simpa [unescape] using this
    exact unescL_ne_nil l hl this

/-- The dedup-fold of splitText keeps the accumulator free of duplicates
and of empty items. -/
theorem splitText_fold_invariant (sep : Char) (parts : List (List Char)) :
    ∀ acc : List (List Char), acc.Nodup → [] ∉ acc →
      (parts.foldl (ChoiceField.dedupStep sep) acc).Nodup ∧
      [] ∉ parts.foldl (ChoiceField.dedupStep sep) acc := by
  induction parts with
  | nil => intro acc h1 h2; exact ⟨h1, h2⟩
  | cons p parts ih =>
    intro acc h1 h2
    simp only [List.foldl_cons]
    by_cases hc : nulToSep sep (pyStrip p) ≠ [] ∧ nulToSep sep (pyStrip p) ∉ acc
    · rw [show ChoiceField.dedupStep sep acc p = acc ++ [nulToSep sep (pyStrip p)] by
        simp only [ChoiceField.dedupStep]; rw [if_pos hc]]
      refine ih (acc ++ [nulToSep sep (pyStrip p)]) ?_ ?_
      · simp [List.nodup_append, h1, hc.2]
      · simp only [List.mem_append, List.mem_singleton]
        rintro (h | h)
        · exact h2 h
        · exact hc.1 h.symm
    · rw [show ChoiceField.dedupStep sep acc p = acc by
        simp only [ChoiceField.dedupStep]; rw [if_neg hc]]
      exact ih acc h1 h2

theorem splitTextL_nodup (sep : Char) (t : List Char) :
    (ChoiceField.splitTextL sep t).Nodup :=
  (splitText_fold_invariant sep _ [] List.nodup_nil (by simp)).1

theorem splitTextL_ne_nil_mem (sep : Char) (t : List Char) :
    [] ∉ ChoiceField.splitTextL sep t :=
  (splitText_fold_invariant sep _ [] List.nodup_nil (by simp)).2

theorem string_mk_injective : Function.Injective String.mk := by
  intro a b h
  injection h

theorem splitText_nodup (t : String) : (ChoiceField.splitText t).Nodup :=
  (splitTextL_nodup '/' t.data).map string_mk_injective

theorem splitText_empty_not_mem (t : String) : "" ∉ ChoiceField.splitText t := by
  intro h
  rcases List.mem_map.mp h with ⟨l, hl, he⟩
  have : l = [] := by
    have := congrArg String.data he
    simpa using this
  exact splitTextL_ne_nil_mem '/' t.data (this ▸ hl)

theorem choiceList_nodup (fmt : String) (ev : Bool) :
    (CombinationField.choiceList fmt ev).Nodup := by
  unfold CombinationField.choiceList
  exact splitText_nodup _

/-- The validity boolean computed by sortedSelections is exactly the
condition that every selection is a declared choice. -/
theorem sortedSelections_valid_iff (fmt : String) (ev : Bool) (inText : String) :
    (CombinationField.sortedSelections fmt ev inText).2 = true ↔
      ∀ s ∈ ChoiceField.splitText inText, s ∈ CombinationField.choiceList fmt ev := by
  unfold CombinationField.sortedSelections
  simp only [beq_iff_eq]
  have hsel : (ChoiceField.splitText inText).Nodup := splitText_nodup _
  have hcl : (CombinationField.choiceList fmt ev).Nodup := choiceList_nodup fmt ev
  set sels := ChoiceField.splitText inText with hd
  set res := (CombinationField.choiceList fmt ev).filter
    (fun c => c ∈ sels) with hr
  have hres : res.Nodup := hcl.filter _
  have hsub : res.toFinset ⊆ sels.toFinset := by
    intro x hx
    rcases List.mem_filter.mp (List.mem_toFinset.mp hx) with ⟨h1, h2⟩
    exact List.mem_toFinset.mpr (by simpa using h2)
  constructor
  · intro h s hs
    have hcards : sels.toFinset.card ≤ res.toFinset.card := by
      rw [List.toFinset_card_of_nodup hres, List.toFinset_card_of_nodup hsel]
      omega
    have hfin := Finset.eq_of_subset_of_card_le hsub hcards
    have hs2 : s ∈ res.toFinset := by
      rw [hfin]
      exact List.mem_toFinset.mpr hs
    exact (List.mem_filter.mp (List.mem_toFinset.mp hs2)).1
  · intro h
    have h2 : sels.toFinset ⊆ res.toFinset := by
      intro x hx
      have hxs := List.mem_toFinset.mp hx
      exact List.mem_toFinset.mpr (List.mem_filter.mpr ⟨h x hxs, by simpa using hxs⟩)
    have hfin : sels.toFinset = res.toFinset := Finset.Subset.antisymm h2 hsub
    have hcard := congrArg Finset.card hfin
    rw [List.toFinset_card_of_nodup hres, List.toFinset_card_of_nodup hsel] at hcard
    exact hcard

/-! ## Claim C3 -/

/-- Claim C3, counterexample: with delimiter slash, splitText on the
string a//b/c/a yields the three items a/b, c, a — not the two items
a/b, c that the claim asserts.  The doubled delimiter folds the leading
a into the first item, so the trailing a is not a duplicate and is
kept. -/
theorem splitText_example_counterexample :
    ChoiceField.splitText "a//b/c/a" = ["a/b", "c", "a"] ∧
    ChoiceField.splitText "a//b/c/a" ≠ ["a/b", "c"] := by
  constructor
  · rfl
  · decide

/-- Claim C3 (amended): with delimiter slash, splitText on a//b/c/a
returns the items a/b, c, a — the doubled delimiter unescapes to one
literal delimiter character inside the first item (so the final a is not
a duplicate of anything) — and in general duplicates and empty entries
are removed while first-seen order is preserved. -/
theorem splitText_unescape_dedup :
    ChoiceField.splitText "a//b/c/a" = ["a/b", "c", "a"] ∧
    (∀ s : String, (ChoiceField.splitText s).Nodup) ∧
    (∀ s : String, "" ∉ ChoiceField.splitText s) :=
  ⟨rfl, splitText_nodup, splitText_empty_not_mem⟩

/-! ## Claim C2 -/

/-- Claim C2: for a Combination field with declared choices x/y/z, storing
editor input z/x yields the stored form x/z; in general, whenever every
selection parsed from the (escaped) editor input is a declared choice,
storedText re-serializes the selections as the sublist of the declared
choice list that is selected — canonical declared order, never input
order. -/
theorem combination_storedText_canonical_order :
    (CombinationField.storedText "x/y/z" false "z/x" = some "x/z") ∧
    (∀ (fmt : String) (ev : Bool) (e : String),
      (∀ s ∈ ChoiceField.splitText (if ev then e else escape e),
        s ∈ CombinationField.choiceList fmt ev) →
      CombinationField.storedText fmt ev e =
        some (CombinationField.joinText
          ((CombinationField.choiceList fmt ev).filter
            fun c => c ∈ ChoiceField.splitText (if ev then e else escape e)))) := by
  constructor
  · rfl
  · intro fmt ev e h
    unfold CombinationField.storedText
    have hv := (sortedSelections_valid_iff fmt ev (if ev then e else escape e)).mpr h
    unfold CombinationField.sortedSelections at hv ⊢
    simp only at hv ⊢
    rw [hv]
    simp

/-- Witness for claim C2: the general canonical-order statement applied to
the field with choices x/y/z and editor input z/x. -/
theorem combination_storedText_canonical_order_witness :
    CombinationField.storedText "x/y/z" false "z/x" =
      some (CombinationField.joinText
        ((CombinationField.choiceList "x/y/z" false).filter
          fun c => c ∈ ChoiceField.splitText (escape "z/x"))) := by
  have h := combination_storedText_canonical_order.2 "x/y/z" false "z/x"
    (by decide)
  simpa using h

/-! ## Claim C9 -/

/-- Claim C9: sortKey returns the pair of a fixed type-rank string and
the field's compareValue — rank 20_num for Number, 30_bool for Boolean,
80_text for text variants — and consequently a Number field's sort key
always orders strictly before a Text field's sort key, whatever the
stored data of either node. -/
theorem sortKey_rank_order :
    (∀ (n : String) (d : Data),
      numberSortKey n d = ("20_num", SortVal.num (NumberField.compareValue n d))) ∧
    (∀ (n : String) (d : Data),
      boolSortKey n d = ("30_bool", SortVal.bool (BooleanField.compareValue n d))) ∧
    (∀ (n : String) (d : Data),
      textSortKey n d = ("80_text", SortVal.str (TextField.compareValue n d))) ∧
    (∀ (n1 : String) (d1 : Data) (n2 : String) (d2 : Data),
      sortKeyLtB (numberSortKey n1 d1) (textSortKey n2 d2) = true) :=
  ⟨fun _ _ => rfl, fun _ _ => rfl, fun _ _ => rfl, fun _ _ _ _ => rfl⟩

/-! ## Claim C10 -/

/-- Claim C10: for every validating variant — Number, Boolean, Choice,
Combination, RegularExpression — the empty string is always accepted:
storedText and formatEditorText both map the empty string to the empty
string without a ValueError, for every format. -/
theorem empty_string_always_accepted :
    (NumberField.storedText "" = some "" ∧
     NumberField.formatEditorText "" = some "") ∧
    (∀ fmt : String, BooleanField.storedText fmt "" = some "" ∧
      BooleanField.formatEditorText fmt "" = some "") ∧
    (∀ (fmt : String) (ev : Bool), ChoiceField.storedText fmt ev "" = some "" ∧
      ChoiceField.formatEditorText fmt ev "" = some "") ∧
    (∀ (fmt : String) (ev : Bool),
      CombinationField.storedText fmt ev "" = some "" ∧
      CombinationField.formatEditorText fmt ev "" = some "") ∧
    (∀ (toks : List RTok) (ev : Bool),
      RegularExpressionField.storedText toks ev "" = some "" ∧
      RegularExpressionField.formatEditorText toks ev "" = some "") := by
  refine ⟨⟨rfl, rfl⟩, fun fmt => ⟨rfl, rfl⟩, fun fmt ev => ⟨?_, ?_⟩,
    fun fmt ev => ⟨?_, ?_⟩, fun toks ev => ⟨?_, ?_⟩⟩
  · cases ev <;> simp [ChoiceField.storedText, escape, escL]
  · cases ev <;> simp [ChoiceField.formatEditorText, unescape, unescL]
  · unfold CombinationField.storedText CombinationField.sortedSelections
    cases ev
    · simp [show ChoiceField.splitText (escape "") = [] from rfl,
        CombinationField.joinText]
      rfl
    · simp [show ChoiceField.splitText "" = [] from rfl,
        CombinationField.joinText]
      rfl
  · have hsplit : ChoiceField.splitText "" = [] := rfl
    unfold CombinationField.formatEditorText
    cases ev
    · simp [hsplit]
      rfl
    · simp [hsplit]
  · cases ev <;> simp [RegularExpressionField.storedText, escape, escL]
  · cases ev <;> simp [RegularExpressionField.formatEditorText, unescape, unescL]

/-! ## Claim C8 -/

/-- Claim C8: formatOutput never raises — every variant's formatOutput is
a total function in this embedding — and when the stored value does not
conform to the variant (non-numeric stored text for Number, a non-member
stored value for Choice, a non-boolean for Boolean, an undeclared
selection for Combination, a non-matching value for RegularExpression),
the fixed error marker is substituted in place of the value only, with
prefix and suffix still applied by the shared base formatting. -/
theorem formatOutput_error_marker :
    (∀ (pre suf fmt stored : String) (tm fh : Bool), numParse stored = none →
      NumberField.formatOutput pre suf fmt stored tm fh =
        TextField.formatOutput pre suf errorStr tm fh) ∧
    (∀ (pre suf fmt : String) (ev : Bool) (stored : String) (tm fh : Bool),
      stored ∉ ChoiceField.choices fmt ev →
      ChoiceField.formatOutput pre suf fmt ev stored tm fh =
        TextField.formatOutput pre suf errorStr tm fh) ∧
    (∀ (pre suf fmt stored : String) (tm fh : Bool), boolSpecFree stored = none →
      BooleanField.formatOutput pre suf fmt stored tm fh =
        TextField.formatOutput pre suf errorStr tm fh) ∧
    (∀ (pre suf fmt : String) (ev : Bool) (outSep stored : String) (tm fh : Bool),
      (CombinationField.sortedSelections fmt ev stored).2 = false →
      CombinationField.formatOutput pre suf fmt ev outSep stored tm fh =
        TextField.formatOutput pre suf errorStr tm fh) ∧
    (∀ (pre suf : String) (toks : List RTok) (stored : String) (tm fh : Bool),
      stored ≠ "" → reMatch toks (unescape stored) = false →
      RegularExpressionField.formatOutput pre suf toks stored tm fh =
        TextField.formatOutput pre suf errorStr tm fh) ∧
    (∀ pre suf : String,
      TextField.formatOutput pre suf errorStr false true = pre ++ errorStr ++ suf) := by
  refine ⟨?_, ?_, ?_, ?_, ?_, ?_⟩
  · intro pre suf fmt stored tm fh h
    unfold NumberField.formatOutput
    rw [h]
  · intro pre suf fmt ev stored tm fh h
    unfold ChoiceField.formatOutput
    rw [if_neg h]
  · intro pre suf fmt stored tm fh h
    unfold BooleanField.formatOutput
    rw [h]
    rfl
  · intro pre suf fmt ev outSep stored tm fh h
    unfold CombinationField.formatOutput
    simp only [h]
    rfl
  · intro pre suf toks stored tm fh h1 h2
    unfold RegularExpressionField.formatOutput
    rw [if_neg (by simp [h1, h2])]
  · intro pre suf
    rfl

/-- Witness for claim C8: every error-marker clause applied at a concrete
non-conforming stored value. -/
theorem formatOutput_error_marker_witness :
    NumberField.formatOutput "p" "s" "#.##" "abc" false true = "p#####s" ∧
    ChoiceField.formatOutput "p" "s" "1/2/3/4" false "9" false true = "p#####s" ∧
    BooleanField.formatOutput "p" "s" "yes/no" "maybe" false true = "p#####s" ∧
    CombinationField.formatOutput "p" "s" "x/y/z" false "-" "q" false true
      = "p#####s" ∧
    RegularExpressionField.formatOutput "p" "s" [RTok.once (RAtom.lit 'a')]
      "b" false true = "p#####s" := by
  refine ⟨?_, ?_, ?_, ?_, ?_⟩
  · rw [formatOutput_error_marker.1 "p" "s" "#.##" "abc" false true rfl]
    rfl
  · rw [formatOutput_error_marker.2.1 "p" "s" "1/2/3/4" false "9" false true
      (by decide)]
    rfl
  · rw [formatOutput_error_marker.2.2.1 "p" "s" "yes/no" "maybe" false true rfl]
    rfl
  · rw [formatOutput_error_marker.2.2.2.1 "p" "s" "x/y/z" false "-" "q" false true
      rfl]
    rfl
  · rw [formatOutput_error_marker.2.2.2.2.1 "p" "s" [RTok.once (RAtom.lit 'a')]
      "b" false true (by decide) rfl]
    rfl

/-! ## Claim C6 -/

/-- Claim C6: for a RegularExpression field with a valid (compiled)
format, storedText accepts a non-empty editor text exactly when the
format matches starting at position 0 of that text, and formatEditorText
accepts a non-empty stored text exactly when the format matches starting
at position 0 of the text it validates (the stored text, unescaped
unless evalHtml); the match need not consume the whole string.  In
particular the format ab.* compiles to literal a, literal b, starred
dot and accepts the editor text abXYZextra, and the genuinely partial
format ab accepts abXYZ while consuming only its first two
characters. -/
theorem regex_prefix_match_accepts :
    (∀ (toks : List RTok) (ev : Bool) (e : String), e ≠ "" →
      ((RegularExpressionField.storedText toks ev e).isSome = true ↔
        reMatch toks e = true)) ∧
    (∀ (toks : List RTok) (ev : Bool) (s : String),
      (if ev then s else unescape s) ≠ "" →
      ((RegularExpressionField.formatEditorText toks ev s).isSome = true ↔
        reMatch toks (if ev then s else unescape s) = true)) ∧
    (parseRegex "ab.*" =
      some [RTok.once (RAtom.lit 'a'), RTok.once (RAtom.lit 'b'),
        RTok.star RAtom.dot]) ∧
    (RegularExpressionField.storedText
      [RTok.once (RAtom.lit 'a'), RTok.once (RAtom.lit 'b'), RTok.star RAtom.dot]
      false "abXYZextra" = some "abXYZextra") ∧
    (RegularExpressionField.storedText
      [RTok.once (RAtom.lit 'a'), RTok.once (RAtom.lit 'b')]
      false "abXYZ" = some "abXYZ") := by
  refine ⟨?_, ?_, ?_, ?_, ?_⟩
  · intro toks ev e he
    unfold RegularExpressionField.storedText
    by_cases hm : reMatch toks e = true
    · simp only [hm, or_true, if_pos]
      cases ev <;> simp
    · simp [he, hm]
  · intro toks ev s hs
    unfold RegularExpressionField.formatEditorText
    by_cases hm : reMatch toks (if ev then s else unescape s) = true
    · simp [hm]
    · simp [hs, hm]
  · rfl
  · rfl
  · rfl

/-- Witness for claim C6: the acceptance criterion applied to the
genuinely partial format ab on the editor text abXYZ (the match stops
after two characters). -/
theorem regex_prefix_match_accepts_witness :
    (RegularExpressionField.storedText
      [RTok.once (RAtom.lit 'a'), RTok.once (RAtom.lit 'b')]
      false "abXYZ").isSome = true :=
  (regex_prefix_match_accepts.1
    [RTok.once (RAtom.lit 'a'), RTok.once (RAtom.lit 'b')] false "abXYZ"
    (by decide)).mpr (by decide)

/-! ### Lemmas on the title-pattern matcher and extractTitleData -/

theorem isPrefixOf_append_drop :
    ∀ l s : List Char, l.isPrefixOf s = true → l ++ s.drop l.length = s := by
  intro l
  induction l with
  | nil => intro s _; simp
  | cons a l ih =>
    intro s h
    cases s with
    | nil =>
      rw [show (a :: l).isPrefixOf ([] : List Char) = false from rfl] at h
      exact Bool.noConfusion h
    | cons b s =>
      simp only [List.isPrefixOf, Bool.and_eq_true, beq_iff_eq] at h
      obtain ⟨hab, hl⟩ := h
      simp only [List.length_cons, List.drop_succ_cons, List.cons_append]
      rw [hab, ih s hl]

theorem grpSearch_sound (k : List Char → Option (List (List Char))) :
    ∀ (s g : List Char) (gs : List (List Char)),
      grpSearch k s = some (g, gs) → ∃ s2, g ++ s2 = s ∧ k s2 = some gs := by
  intro s
  induction s with
  | nil =>
    intro g gs h
    unfold grpSearch at h
    cases hk : k [] with
    | none => rw [hk] at h; simp at h
    | some gs2 =>
      rw [hk] at h
      simp only [Option.map_some'] at h
      injection h with h2
      injection h2 with hg hgs
      exact ⟨[], by simp [← hg], by rw [hk, hgs]⟩
  | cons c cs ih =>
    intro g gs h
    unfold grpSearch at h
    cases hr : grpSearch k cs with
    | some p =>
      rw [hr] at h
      injection h with h2
      injection h2 with hg hgs
      obtain ⟨s2, hs2, hk2⟩ := ih p.1 p.2 (by rw [hr])
      exact ⟨s2, by rw [← hg]; simp [hs2], by rw [hk2, hgs]⟩
    | none =>
      rw [hr] at h
      cases hk : k (c :: cs) with
      | none => rw [hk] at h; simp at h
      | some gs2 =>
        rw [hk] at h
        simp only [Option.map_some'] at h
        injection h with h2
        injection h2 with hg hgs
        exact ⟨c :: cs, by simp [← hg], by rw [hk, hgs]⟩

theorem matchF_sound :
    ∀ (f : Nat) (segs : List PSeg) (s : List Char) (gs : List (List Char)),
      matchF f segs s = some gs → ∃ rest, consumedOf segs gs ++ rest = s := by
  intro f
  induction f with
  | zero => intro segs s gs h; simp [matchF] at h
  | succ f ih =>
    intro segs s gs h
    cases segs with
    | nil =>
      exact ⟨s, by simp [consumedOf]⟩
    | cons seg rest =>
      cases seg with
      | lit l =>
        unfold matchF at h
        by_cases hp : l.isPrefixOf s = true
        · rw [if_pos hp] at h
          obtain ⟨r2, hr2⟩ := ih rest (s.drop l.length) gs h
          refine ⟨r2, ?_⟩
          show l ++ consumedOf rest gs ++ r2 = s
          rw [List.append_assoc, hr2]
          exact isPrefixOf_append_drop l s hp
        · rw [if_neg hp] at h
          exact Option.noConfusion h
      | group =>
        unfold matchF at h
        cases hg : grpSearch (matchF f rest) s with
        | none => rw [hg] at h; simp at h
        | some p =>
          rw [hg] at h
          simp only [Option.map_some'] at h
          injection h with h2
          obtain ⟨s2, hs2, hm2⟩ := grpSearch_sound _ s p.1 p.2 (by rw [hg])
          obtain ⟨r2, hr2⟩ := ih rest s2 p.2 hm2
          refine ⟨r2, ?_⟩
          rw [← h2]
          show p.1 ++ consumedOf rest p.2 ++ r2 = s
          rw [List.append_assoc, hr2, hs2]

theorem extractTitleData_match_case (nf : NodeFormat) (title : String)
    (d : Data) (gs : List (List Char))
    (h : matchSegs (buildPattern nf.titleLine) title.data = some gs) :
    extractTitleData nf title d =
      some (convertLoop
        ((fieldsOf nf.titleLine).zip (gs.map fun g => (⟨g⟩ : String))) d) := by
  unfold extractTitleData
  simp only [h]

theorem extractTitleData_nomatch_sep (nf : NodeFormat) (title : String)
    (d : Data)
    (h : matchSegs (buildPattern nf.titleLine) title.data = none)
    (h2 : pyStrip (extraTextOf nf.titleLine) ≠ []) :
    extractTitleData nf title d = some (false, d) := by
  unfold extractTitleData
  simp only [h]
  rw [if_neg h2]

theorem extractTitleData_fallback_fail (nf : NodeFormat) (title : String)
    (d : Data) (f0 : Field) (rest : List Field)
    (hf : fieldsOf nf.titleLine = f0 :: rest)
    (h : matchSegs (buildPattern nf.titleLine) title.data = none)
    (h2 : pyStrip (extraTextOf nf.titleLine) = [])
    (hc : f0.storedTextFromTitle title = none) :
    extractTitleData nf title d = some (false, d) := by
  unfold extractTitleData
  simp only [h, hf, hc]
  rw [if_pos h2]

theorem extractTitleData_fallback_succeed (nf : NodeFormat) (title : String)
    (d : Data) (f0 : Field) (rest : List Field) (t : String)
    (hf : fieldsOf nf.titleLine = f0 :: rest)
    (h : matchSegs (buildPattern nf.titleLine) title.data = none)
    (h2 : pyStrip (extraTextOf nf.titleLine) = [])
    (hc : f0.storedTextFromTitle title = some t) :
    extractTitleData nf title d =
      some (true, rest.foldl (fun acc f => dataSet acc f.name "")
        (dataSet d f0.name t)) := by
  unfold extractTitleData
  simp only [h, hf, hc]
  rw [if_pos h2]

/-- A failing conversion loop decomposes into a run of successful
conversions (whose writes are kept), the failing pair, and an untouched
remainder. -/
theorem convertLoop_fail_decomp :
    ∀ (pairs : List (Field × String)) (d d2 : Data),
      convertLoop pairs d = (false, d2) →
      ∃ (pa : List (Field × String)) (p : Field × String)
        (pb : List (Field × String)),
        pairs = pa ++ p :: pb ∧
        (∀ q ∈ pa, (q.1.storedTextFromTitle q.2).isSome = true) ∧
        p.1.storedTextFromTitle p.2 = none ∧
        d2 = applyWrites pa d := by
  intro pairs
  induction pairs with
  | nil =>
    intro d d2 h
    simp [convertLoop] at h
  | cons p rest ih =>
    intro d d2 h
    unfold convertLoop at h
    cases hc : p.1.storedTextFromTitle p.2 with
    | none =>
      rw [hc] at h
      injection h with h1 h2
      exact ⟨[], p, rest, by simp, by simp, hc, by simp [applyWrites, h2]⟩
    | some t =>
      rw [hc] at h
      obtain ⟨pa, q, pb, hp, hall, hq, hd⟩ := ih (dataSet d p.1.name t) d2 h
      refine ⟨p :: pa, q, pb, by rw [hp]; rfl, ?_, hq, ?_⟩
      · intro x hx
        rcases List.mem_cons.mp hx with hx | hx
        · rw [hx, hc]; rfl
        · exact hall x hx
      · rw [hd]
        simp [applyWrites, hc]

/-! ## Claim C4 -/

/-- Claim C4, counterexample: for the title line consisting of the field
Name followed by the literal exclamation mark, the built pattern has no
full match against the title abc!extra (the title does not end in the
literal), yet extractTitleData extracts Name = abc through the match
path and reports success: re.match anchors only at the start, so a
pattern matching a proper prefix still yields an extraction. -/
theorem extractTitleData_full_match_counterexample :
    extractTitleData ⟨"T", [Seg.fld (Field.text "Name"), Seg.lit "!"]⟩
      "abc!extra" [] = some (true, [("Name", "abc")]) ∧
    matchSegsFull (buildPattern [Seg.fld (Field.text "Name"), Seg.lit "!"])
      "abc!extra".data = none :=
  ⟨rfl, rfl⟩

/-- Claim C4 (amended): extractTitleData builds its pattern by replacing
each field segment with a capturing group and each literal segment with
its escaped text, and extracts field values through the match path
exactly when that pattern matches the title string anchored at the
start; the matched region is a prefix of the title and need not cover
the whole string. -/
theorem extractTitleData_anchored_prefix_match :
    (∀ (f : Nat) (segs : List PSeg) (s : List Char) (gs : List (List Char)),
      matchF f segs s = some gs → ∃ rest, consumedOf segs gs ++ rest = s) ∧
    (∀ (nf : NodeFormat) (title : String) (d : Data) (gs : List (List Char)),
      matchSegs (buildPattern nf.titleLine) title.data = some gs →
      extractTitleData nf title d =
        some (convertLoop
          ((fieldsOf nf.titleLine).zip (gs.map fun g => (⟨g⟩ : String))) d)) ∧
    (∀ (nf : NodeFormat) (title : String) (d : Data),
      matchSegs (buildPattern nf.titleLine) title.data = none →
      pyStrip (extraTextOf nf.titleLine) ≠ [] →
      extractTitleData nf title d = some (false, d)) :=
  ⟨matchF_sound, extractTitleData_match_case, extractTitleData_nomatch_sep⟩

/-- Witness for claim C4: on the title line Name + exclamation literal and
the title abc!extra, the matcher returns the group abc, the consumed
region abc! is a proper prefix of the title, and extraction goes through
the match path. -/
theorem extractTitleData_anchored_prefix_match_witness :
    (∃ rest,
      consumedOf (buildPattern [Seg.fld (Field.text "Name"), Seg.lit "!"])
        [['a', 'b', 'c']] ++ rest = "abc!extra".data) ∧
    extractTitleData ⟨"T", [Seg.fld (Field.text "Name"), Seg.lit "!"]⟩
      "abc!extra" [] =
      some (convertLoop
        ((fieldsOf [Seg.fld (Field.text "Name"), Seg.lit "!"]).zip
          (([['a', 'b', 'c']]).map fun g => (⟨g⟩ : String))) []) :=
  ⟨extractTitleData_anchored_prefix_match.1 3
      (buildPattern [Seg.fld (Field.text "Name"), Seg.lit "!"])
      "abc!extra".data [['a', 'b', 'c']] rfl,
    extractTitleData_anchored_prefix_match.2.1
      ⟨"T", [Seg.fld (Field.text "Name"), Seg.lit "!"]⟩ "abc!extra" []
      [['a', 'b', 'c']] rfl⟩

/-! ## Claim C5 -/

/-- Claim C5, counterexample: the title line is the Choice field C (with
choices 1/2/3/4) and the Text field D separated by a space — literal
content pure whitespace — and the title xyz produces no pattern match;
the claim asserts the fallback then assigns the whole title to C and
returns True, but C's storedTextFromTitle raises ValueError on xyz, so
extractTitleData returns False instead. -/
theorem extractTitleData_fallback_counterexample :
    extractTitleData
      ⟨"T", [Seg.fld (Field.choice "C" "1/2/3/4" false), Seg.lit " ",
        Seg.fld (Field.text "D")]⟩ "xyz" [] = some (false, []) :=
  rfl

/-- Claim C5 (amended): for every NodeFormat whose title line contains at
least one field segment and whose literal segments are pure whitespace,
if the built pattern fails to match the title string and the first
field's storedTextFromTitle conversion of the whole title succeeds, then
extractTitleData assigns the converted title to the first field, sets
every other field of the template to the empty string, and returns True
(if that conversion raises a ValidationError, it returns False
instead). -/
theorem extractTitleData_whitespace_fallback :
    (∀ (nf : NodeFormat) (title : String) (d : Data) (f0 : Field)
      (rest : List Field) (t : String),
      fieldsOf nf.titleLine = f0 :: rest →
      matchSegs (buildPattern nf.titleLine) title.data = none →
      pyStrip (extraTextOf nf.titleLine) = [] →
      f0.storedTextFromTitle title = some t →
      extractTitleData nf title d =
        some (true, rest.foldl (fun acc f => dataSet acc f.name "")
          (dataSet d f0.name t))) ∧
    (∀ (nf : NodeFormat) (title : String) (d : Data) (f0 : Field)
      (rest : List Field),
      fieldsOf nf.titleLine = f0 :: rest →
      matchSegs (buildPattern nf.titleLine) title.data = none →
      pyStrip (extraTextOf nf.titleLine) = [] →
      f0.storedTextFromTitle title = none →
      extractTitleData nf title d = some (false, d)) :=
  ⟨extractTitleData_fallback_succeed, extractTitleData_fallback_fail⟩

/-- Witness for claim C5: the title line Name + space + Tag on the title
HelloWorld (no space, so the pattern cannot match): the whole title goes
to Name and Tag is cleared, with success reported. -/
theorem extractTitleData_whitespace_fallback_witness :
    extractTitleData
      ⟨"T", [Seg.fld (Field.text "Name"), Seg.lit " ",
        Seg.fld (Field.text "Tag")]⟩ "HelloWorld" [] =
      some (true, [Field.text "Tag"].foldl
        (fun acc f => dataSet acc f.name "")
        (dataSet [] (Field.text "Name").name "HelloWorld")) :=
  extractTitleData_whitespace_fallback.1
    ⟨"T", [Seg.fld (Field.text "Name"), Seg.lit " ", Seg.fld (Field.text "Tag")]⟩
    "HelloWorld" [] (Field.text "Name") [Field.text "Tag"] "HelloWorld"
    rfl rfl rfl rfl

/-! ## Claim C1 -/

/-- Claim C1, counterexample: the title line is the Text field A, the
literal colon-space, and the Choice field B (choices 1/2/3/4).  On the
title x: bad the pattern matches with groups x and bad; converting A
succeeds and writes A = x, then converting B raises ValueError, so
extractTitleData returns False — but the data dictionary now contains
the partial write A = x, contradicting the claimed non-mutation. -/
theorem extractTitleData_partial_write_counterexample :
    extractTitleData
      ⟨"T", [Seg.fld (Field.text "A"), Seg.lit ": ",
        Seg.fld (Field.choice "B" "1/2/3/4" false)]⟩ "x: bad" [] =
      some (false, [("A", "x")]) ∧
    ([("A", "x")] : Data) ≠ [] :=
  ⟨rfl, by decide⟩

/-- Claim C1 (amended): when extractTitleData returns False without
entering the match-path conversion loop — the pattern fails to match and
the literal content is not pure whitespace, or the whitespace fallback's
first-field conversion fails — the data dictionary is exactly as it was
before the call; but when a ValidationError is raised while converting
the matched groups, every field converted before the failing one has
already been written into the dictionary (partial writes), and the
failing loop decomposes into that successful prefix, the failing pair,
and an untouched remainder. -/
theorem extractTitleData_failure_writes :
    (∀ (nf : NodeFormat) (title : String) (d : Data),
      matchSegs (buildPattern nf.titleLine) title.data = none →
      pyStrip (extraTextOf nf.titleLine) ≠ [] →
      extractTitleData nf title d = some (false, d)) ∧
    (∀ (nf : NodeFormat) (title : String) (d : Data) (f0 : Field)
      (rest : List Field),
      fieldsOf nf.titleLine = f0 :: rest →
      matchSegs (buildPattern nf.titleLine) title.data = none →
      pyStrip (extraTextOf nf.titleLine) = [] →
      f0.storedTextFromTitle title = none →
      extractTitleData nf title d = some (false, d)) ∧
    (∀ (pairs : List (Field × String)) (d d2 : Data),
      convertLoop pairs d = (false, d2) →
      ∃ (pa : List (Field × String)) (p : Field × String)
        (pb : List (Field × String)),
        pairs = pa ++ p :: pb ∧
        (∀ q ∈ pa, (q.1.storedTextFromTitle q.2).isSome = true) ∧
        p.1.storedTextFromTitle p.2 = none ∧
        d2 = applyWrites pa d) :=
  ⟨extractTitleData_nomatch_sep, extractTitleData_fallback_fail,
    convertLoop_fail_decomp⟩

/-- Witness for claim C1: the no-match branch applied to the title line
Name + exclamation literal and the title zzz (no exclamation mark, and
the literal is not whitespace): extraction fails and the dictionary is
returned unchanged. -/
theorem extractTitleData_failure_writes_witness :
    extractTitleData ⟨"T", [Seg.fld (Field.text "Name"), Seg.lit "!"]⟩
      "zzz" [("K", "v")] = some (false, [("K", "v")]) :=
  extractTitleData_failure_writes.1
    ⟨"T", [Seg.fld (Field.text "Name"), Seg.lit "!"]⟩ "zzz" [("K", "v")]
    rfl (by decide)

/-! ### Lemmas towards the round-trip laws: splitText items are stripped,
free of the NUL placeholder, and rebuild their join -/

theorem dropWhile_head_false (p : Char → Bool) :
    ∀ (l : List Char) (c : Char) (cs : List Char),
      l.dropWhile p = c :: cs → p c = false := by
  intro l
  induction l with
  | nil => intro c cs h; exact absurd h (by simp)
  | cons a r ih =>
    intro c cs h
    by_cases hp : p a = true
    · rw [List.dropWhile_cons_of_pos hp] at h
      exact ih c cs h
    · rw [List.dropWhile_cons_of_neg hp] at h
      injection h with h1 _
      rw [← h1]
      exact Bool.eq_false_iff.mpr hp

theorem pyStrip_idem (l : List Char) : pyStrip (pyStrip l) = pyStrip l := by
  unfold pyStrip
  have hdw : (List.rdropWhile isPySpace (l.dropWhile isPySpace)).dropWhile
      isPySpace = List.rdropWhile isPySpace (l.dropWhile isPySpace) := by
    cases hv : List.rdropWhile isPySpace (l.dropWhile isPySpace) with
    | nil => rfl
    | cons c cs =>
      rcases List.rdropWhile_prefix isPySpace (l.dropWhile isPySpace) with ⟨t, ht⟩
      rw [hv] at ht
      have hu : l.dropWhile isPySpace = c :: (cs ++ t) := by
        rw [← ht]
        rfl
      have hc : isPySpace c = false := dropWhile_head_false isPySpace l c _ hu
      exact List.dropWhile_cons_of_neg (by simp [hc])
  rw [hdw, List.rdropWhile_idempotent]

theorem nulToSep_id (sep : Char) (l : List Char) (h : nulChar ∉ l) :
    nulToSep sep l = l := by
  unfold nulToSep
  induction l with
  | nil => rfl
  | cons c r ih =>
    have hc : c ≠ nulChar := fun he => h (he ▸ List.mem_cons_self c r)
    simp only [List.map_cons, if_neg hc]
    rw [ih fun hm => h (List.mem_cons_of_mem c hm)]

theorem nulChar_not_mem_nulToSep (sep : Char) (l : List Char)
    (hs : sep ≠ nulChar) : nulChar ∉ nulToSep sep l := by
  unfold nulToSep
  intro h
  rcases List.mem_map.mp h with ⟨c, _, hc⟩
  by_cases he : c = nulChar
  · rw [if_pos he] at hc
    exact hs hc
  · rw [if_neg he] at hc
    exact he hc

theorem pyStrip_nulToSep (sep : Char) (l : List Char)
    (hs : isPySpace sep = false) :
    pyStrip (nulToSep sep l) = nulToSep sep (pyStrip l) := by
  have hcomp : (isPySpace ∘ fun c => if c = nulChar then sep else c) =
      isPySpace := by
    funext c
    show isPySpace (if c = nulChar then sep else c) = isPySpace c
    by_cases he : c = nulChar
    · rw [if_pos he, hs, he]
      decide
    · rw [if_neg he]
  unfold pyStrip nulToSep List.rdropWhile
  rw [List.dropWhile_map, hcomp, ← List.map_reverse, List.dropWhile_map, hcomp,
    ← List.map_reverse]

/-- Every item of splitText is strip-stable and free of the NUL
placeholder (the separator is neither whitespace nor NUL). -/
theorem splitTextL_mem_props (sep : Char) (hs1 : isPySpace sep = false)
    (hs2 : sep ≠ nulChar) (t : List Char) :
    ∀ c ∈ ChoiceField.splitTextL sep t, pyStrip c = c ∧ nulChar ∉ c := by
  have main : ∀ (parts : List (List Char)) (acc : List (List Char)),
      (∀ c ∈ acc, pyStrip c = c ∧ nulChar ∉ c) →
      ∀ c ∈ parts.foldl (ChoiceField.dedupStep sep) acc,
        pyStrip c = c ∧ nulChar ∉ c := by
    intro parts
    induction parts with
    | nil => intro acc hacc c hc; exact hacc c hc
    | cons p parts ih =>
      intro acc hacc c hc
      rw [List.foldl_cons] at hc
      refine ih _ ?_ c hc
      intro x hx
      unfold ChoiceField.dedupStep at hx
      by_cases hcond : nulToSep sep (pyStrip p) ≠ [] ∧
          nulToSep sep (pyStrip p) ∉ acc
      · rw [if_pos hcond] at hx
        rcases List.mem_append.mp hx with hx | hx
        · exact hacc x hx
        · rw [List.mem_singleton] at hx
          subst hx
          constructor
          · rw [pyStrip_nulToSep sep _ hs1, pyStrip_idem]
          · exact nulChar_not_mem_nulToSep sep _ hs2
      · rw [if_neg hcond] at hx
        exact hacc x hx
  exact main _ [] (by simp)

theorem sepToDbl_id (sep : Char) (l : List Char) (h : sep ∉ l) :
    sepToDbl sep l = l := by
  unfold sepToDbl
  induction l with
  | nil => rfl
  | cons c r ih =>
    have hc : c ≠ sep := fun he => h (he ▸ List.mem_cons_self c r)
    simp only [List.map_cons, List.flatten_cons, if_neg hc]
    rw [ih fun hm => h (List.mem_cons_of_mem c hm)]
    rfl

theorem dblToNul_sepfree_append (sep : Char) :
    ∀ (xs t : List Char), sep ∉ xs →
      dblToNul sep (xs ++ t) = xs ++ dblToNul sep t := by
  intro xs
  induction xs with
  | nil => intro t _; rfl
  | cons a xs ih =>
    intro t h
    have ha : a ≠ sep := fun he => h (he ▸ List.mem_cons_self a xs)
    have hxs : sep ∉ xs := fun hm => h (List.mem_cons_of_mem a hm)
    show dblToNul sep (a :: (xs ++ t)) = a :: (xs ++ dblToNul sep t)
    cases hxt : xs ++ t with
    | nil =>
      rcases List.append_eq_nil.mp hxt with ⟨h1, h2⟩
      subst h1
      subst h2
      rfl
    | cons b r =>
      rw [show dblToNul sep (a :: b :: r) =
          if a = sep ∧ b = sep then nulChar :: dblToNul sep r
          else a :: dblToNul sep (b :: r) from rfl,
        if_neg (fun hab => ha hab.1), ← hxt, ih t hxs]

theorem dblToNul_sepfree (sep : Char) (xs : List Char) (h : sep ∉ xs) :
    dblToNul sep xs = xs := by
  have h2 := dblToNul_sepfree_append sep xs [] h
  rw [List.append_nil] at h2
  rw [h2, show dblToNul sep [] = [] from rfl, List.append_nil]

theorem intercalate_pair (sep : Char) (c c2 : List Char)
    (rest : List (List Char)) :
    List.intercalate [sep] (c :: c2 :: rest) =
      c ++ sep :: List.intercalate [sep] (c2 :: rest) := by
  simp [List.intercalate, List.intersperse_cons_cons]

theorem intercalate_single (sep : Char) (c : List Char) :
    List.intercalate [sep] [c] = c := by
  simp [List.intercalate]

/-- The first element of a join of a non-empty-headed item list is the
head item's head, which is not the separator when that item is
separator-free. -/
theorem intercalate_head_shape (sep : Char) (c2 : List Char)
    (rest2 : List (List Char)) (hne : c2 ≠ []) (hfree : sep ∉ c2) :
    ∃ b r, List.intercalate [sep] (c2 :: rest2) = b :: r ∧ b ≠ sep := by
  cases c2 with
  | nil => exact absurd rfl hne
  | cons d ds =>
    have hd : d ≠ sep := fun he => hfree (he ▸ List.mem_cons_self d ds)
    cases rest2 with
    | nil => exact ⟨d, ds, intercalate_single sep (d :: ds), hd⟩
    | cons e es =>
      refine ⟨d, ds ++ sep :: List.intercalate [sep] (e :: es), ?_, hd⟩
      rw [intercalate_pair]
      rfl

/-- The dedup-fold of splitText appends every item unchanged when the
items are already clean (strip-stable after NUL restoration, non-empty,
pairwise distinct, and absent from the accumulator). -/
theorem dedup_fold_id (sep : Char) :
    ∀ (items acc : List (List Char)),
      (∀ t ∈ items, nulToSep sep (pyStrip t) = t ∧ t ≠ [] ∧ t ∉ acc) →
      items.Nodup →
      items.foldl (ChoiceField.dedupStep sep) acc = acc ++ items := by
  intro items
  induction items with
  | nil => intro acc _ _; simp
  | cons t rest ih =>
    intro acc h hnd
    have ht := h t (List.mem_cons_self t rest)
    rw [List.foldl_cons,
      show ChoiceField.dedupStep sep acc t = acc ++ [t] by
        unfold ChoiceField.dedupStep
        rw [ht.1, if_pos ⟨ht.2.1, ht.2.2⟩]]
    rw [ih (acc ++ [t]) ?_ (List.Nodup.of_cons hnd)]
    · simp
    · intro x hx
      have hxr := h x (List.mem_cons_of_mem t hx)
      refine ⟨hxr.1, hxr.2.1, ?_⟩
      intro hmem
      rcases List.mem_append.mp hmem with hm | hm
      · exact hxr.2.2 hm
      · rw [List.mem_singleton] at hm
        exact (List.nodup_cons.mp hnd).1 (hm ▸ hx)

/-- On a join of non-empty separator-free items, the doubled-separator
replacement finds nothing to replace. -/
theorem dblToNul_intercalate (sep : Char) :
    ∀ items : List (List Char),
      (∀ c ∈ items, c ≠ [] ∧ sep ∉ c) →
      dblToNul sep (List.intercalate [sep] items) =
        List.intercalate [sep] items := by
  intro items
  induction items with
  | nil => intro _; rfl
  | cons c rest ih =>
    intro h
    cases rest with
    | nil =>
      rw [intercalate_single]
      exact dblToNul_sepfree sep c (h c (List.mem_cons_self c [])).2
    | cons c2 rest2 =>
      have hc := h c (List.mem_cons_self c _)
      have hc2 := h c2 (List.mem_cons_of_mem c (List.mem_cons_self c2 _))
      have hrest : ∀ x ∈ c2 :: rest2, x ≠ [] ∧ sep ∉ x := fun x hx =>
        h x (List.mem_cons_of_mem c hx)
      obtain ⟨b, r, hbr, hb⟩ :=
        intercalate_head_shape sep c2 rest2 hc2.1 hc2.2
      have hIH := ih hrest
      rw [intercalate_pair, dblToNul_sepfree_append sep c _ hc.2]
      congr 1
      rw [hbr,
        show dblToNul sep (sep :: b :: r) =
          if sep = sep ∧ b = sep then nulChar :: dblToNul sep r
          else sep :: dblToNul sep (b :: r) from rfl,
        if_neg (fun hab => hb hab.2), ← hbr, hIH]

theorem splitTextL_intercalate (sep : Char) (items : List (List Char))
    (hne : items ≠ [])
    (hprops : ∀ c ∈ items, c ≠ [] ∧ sep ∉ c ∧ nulToSep sep (pyStrip c) = c)
    (hnd : items.Nodup) :
    ChoiceField.splitTextL sep (List.intercalate [sep] items) = items := by
  unfold ChoiceField.splitTextL pySplitCh
  rw [dblToNul_intercalate sep items
    (fun c hc => ⟨(hprops c hc).1, (hprops c hc).2.1⟩)]
  rw [List.splitOn_intercalate items sep (fun l hl => (hprops l hl).2.1) hne]
  have := dedup_fold_id sep items []
    (fun t ht => ⟨(hprops t ht).2.2, (hprops t ht).1, by simp⟩) hnd
  rw [this]
  rfl

theorem string_eta (s : String) : (⟨s.data⟩ : String) = s := by
  cases s
  rfl

theorem string_data_injective : Function.Injective String.data := by
  intro a b h
  cases a
  cases b
  exact congrArg String.mk h

/-- splitText of a string built by joinText from clean items recovers the
items (String level, delimiter-free items). -/
theorem splitText_joinText (items : List String)
    (hprops : ∀ c ∈ items, c ≠ "" ∧ ('/' : Char) ∉ c.data ∧
      pyStrip c.data = c.data ∧ nulChar ∉ c.data)
    (hnd : items.Nodup) :
    ChoiceField.splitText (CombinationField.joinText items) = items := by
  cases hitems : items with
  | nil => rfl
  | cons i0 irest =>
    rw [← hitems]
    have hmap : items.map (fun t => sepToDbl '/' t.data) =
        items.map String.data := by
      apply List.map_congr_left
      intro c hc
      exact sepToDbl_id '/' c.data (hprops c hc).2.1
    unfold CombinationField.joinText ChoiceField.splitText
    rw [hmap]
    have hdata : ∀ l ∈ items.map String.data, l ≠ [] ∧ ('/' : Char) ∉ l ∧
        nulToSep '/' (pyStrip l) = l := by
      intro l hl
      rcases List.mem_map.mp hl with ⟨c, hc, hcl⟩
      obtain ⟨h1, h2, h3, h4⟩ := hprops c hc
      subst hcl
      refine ⟨fun he => h1 (string_data_injective he), h2, ?_⟩
      rw [h3]
      exact nulToSep_id '/' c.data h4
    have hndd : (items.map String.data).Nodup :=
      hnd.map string_data_injective
    have hned : items.map String.data ≠ [] := by
      rw [hitems]
      simp
    rw [show (⟨List.intercalate ['/'] (items.map String.data)⟩ : String).data =
      List.intercalate ['/'] (items.map String.data) from rfl]
    rw [splitTextL_intercalate '/' (items.map String.data) hned hdata hndd]
    rw [List.map_map]
    have hid : ((fun l => (⟨l⟩ : String)) ∘ String.data) = id := by
      funext c
      exact string_eta c
    rw [hid, List.map_id]

theorem filter_mem_filter (l : List String) (q : String → Bool) :
    l.filter (fun c => decide (c ∈ l.filter q)) = l.filter q := by
  apply List.filter_congr
  intro x hx
  by_cases hq : q x = true
  · simp [List.mem_filter, hx, hq]
  · simp [List.mem_filter, hq]

theorem escL_append (a b : List Char) : escL (a ++ b) = escL a ++ escL b := by
  unfold escL
  rw [List.map_append, List.flatten_append]

theorem escL_intercalate :
    ∀ us : List (List Char),
      escL (List.intercalate ['/'] us) = List.intercalate ['/'] (us.map escL) := by
  intro us
  induction us with
  | nil => rfl
  | cons u rest ih =>
    cases rest with
    | nil =>
      rw [intercalate_single, List.map_cons, List.map_nil, intercalate_single]
    | cons u2 rest2 =>
      rw [intercalate_pair, List.map_cons,
        show (u2 :: rest2).map escL = escL u2 :: rest2.map escL from rfl,
        intercalate_pair, escL_append,
        show ('/' : Char) :: List.intercalate ['/'] (u2 :: rest2) =
          ['/'] ++ List.intercalate ['/'] (u2 :: rest2) from rfl,
        escL_append, ih,
        show escL ['/'] = ['/'] by decide]
      rfl

/-- A join of escape-closed, delimiter-free items is escape-closed:
escaping its unescape reproduces it. -/
theorem escape_unescape_joinText (result : List String)
    (hesc : ∀ c ∈ result, escape (unescape c) = c)
    (hdf : ∀ c ∈ result, ('/' : Char) ∉ c.data) :
    escape (unescape (CombinationField.joinText result)) =
      CombinationField.joinText result := by
  have hmap : result.map (fun t => sepToDbl '/' t.data) =
      result.map String.data := by
    apply List.map_congr_left
    intro c hc
    exact sepToDbl_id '/' c.data (hdf c hc)
  have hescdata : ∀ c ∈ result, escL (unescL c.data) = c.data := by
    intro c hc
    have := congrArg String.data (hesc c hc)
    simpa [escape, unescape] using this
  have himg : result.map String.data =
      (result.map fun c => unescL c.data).map escL := by
    rw [List.map_map]
    apply List.map_congr_left
    intro c hc
    exact (hescdata c hc).symm
  unfold CombinationField.joinText
  rw [hmap, himg, ← escL_intercalate]
  unfold escape unescape
  rw [show (⟨escL (List.intercalate ['/']
      (result.map fun c => unescL c.data))⟩ : String).data =
    escL (List.intercalate ['/'] (result.map fun c => unescL c.data)) from rfl]
  rw [unescL_escL]

/-- Items of a Combination choice list are non-empty, strip-stable and
free of the NUL placeholder. -/
theorem choiceList_mem_props (fmt : String) (ev : Bool) :
    ∀ c ∈ CombinationField.choiceList fmt ev,
      c ≠ "" ∧ pyStrip c.data = c.data ∧ nulChar ∉ c.data := by
  intro c hc
  unfold CombinationField.choiceList at hc
  refine ⟨fun he => splitText_empty_not_mem _ (he ▸ hc), ?_⟩
  unfold ChoiceField.splitText at hc
  rcases List.mem_map.mp hc with ⟨l, hl, hcl⟩
  have hprops := splitTextL_mem_props '/' rfl (by decide) _ l hl
  have : c.data = l := by
    rw [← hcl]
  rw [this]
  exact hprops

/-! ### Lemmas on the numeric-literal model: canonical forms re-parse to
themselves -/

theorem canonDigits_ne_nil (l : List Char) : canonDigits l ≠ [] := by
  unfold canonDigits
  cases h : l.dropWhile fun c => c = '0' with
  | nil => simp
  | cons c cs => simp

theorem canonDigits_all_isDigit (l : List Char)
    (h : l.all Char.isDigit = true) :
    (canonDigits l).all Char.isDigit = true := by
  unfold canonDigits
  cases hd : l.dropWhile fun c => c = '0' with
  | nil => decide
  | cons c cs =>
    rw [List.all_eq_true] at h ⊢
    intro x hx
    have hsub : x ∈ l := by
      have hsubl := List.dropWhile_sublist (l := l) (p := fun c => c = '0')
      exact hsubl.mem (hd ▸ hx)
    exact h x hsub

theorem canonDigits_shape (l : List Char) :
    canonDigits l = ['0'] ∨
      ∃ c cs, canonDigits l = c :: cs ∧ c ≠ '0' := by
  unfold canonDigits
  cases hd : l.dropWhile fun c => c = '0' with
  | nil => exact Or.inl rfl
  | cons c cs =>
    right
    refine ⟨c, cs, rfl, ?_⟩
    have := dropWhile_head_false (fun c => c = '0') l c cs hd
    simpa using this

theorem canonDigits_of_head_ne (c : Char) (cs : List Char) (h : c ≠ '0') :
    canonDigits (c :: cs) = c :: cs := by
  unfold canonDigits
  rw [List.dropWhile_cons_of_neg (by simpa using h)]

theorem numParseL_idem (l c : List Char) (h : numParseL l = some c) :
    numParseL c = some c := by
  cases l with
  | nil => exact absurd h (by simp [numParseL])
  | cons c0 ds =>
    simp only [numParseL] at h
    by_cases hm : c0 = '-'
    · rw [if_pos hm] at h
      by_cases hds : ds ≠ [] ∧ ds.all Char.isDigit
      · rw [if_pos hds] at h
        injection h with h
        by_cases h0 : canonDigits ds = ['0']
        · rw [if_pos h0] at h
          rw [← h]
          decide
        · rw [if_neg h0] at h
          rcases canonDigits_shape ds with hsh | ⟨c1, cs1, hsh, hc1⟩
          · exact absurd hsh h0
          · have hdig := canonDigits_all_isDigit ds hds.2
            rw [hsh] at hdig h0
            rw [← h, hsh]
            simp only [numParseL, if_true]
            rw [if_pos ⟨by simp, hdig⟩,
              canonDigits_of_head_ne c1 cs1 hc1, if_neg h0]
      · rw [if_neg hds] at h
        exact absurd h (by simp)
    · rw [if_neg hm] at h
      by_cases hall : (c0 :: ds).all Char.isDigit = true
      · rw [if_pos hall] at h
        injection h with h
        rcases canonDigits_shape (c0 :: ds) with hsh | ⟨c1, cs1, hsh, hc1⟩
        · rw [← h, hsh]
          decide
        · have hdig := canonDigits_all_isDigit _ hall
          rw [hsh] at hdig
          have hc1d : c1.isDigit = true := by
            rw [List.all_eq_true] at hdig
            exact hdig c1 (List.mem_cons_self c1 cs1)
          have hcm : c1 ≠ '-' := by
            intro he
            rw [he] at hc1d
            exact absurd hc1d (by decide)
          rw [← h, hsh]
          simp only [numParseL]
          rw [if_neg hcm, if_pos hdig, canonDigits_of_head_ne c1 cs1 hc1]
      · rw [if_neg hall] at h
        exact absurd h (by simp)

theorem numParseL_ne_nil (l c : List Char) (h : numParseL l = some c) :
    c ≠ [] := by
  cases l with
  | nil => exact absurd h (by simp [numParseL])
  | cons c0 ds =>
    simp only [numParseL] at h
    by_cases hm : c0 = '-'
    · rw [if_pos hm] at h
      by_cases hds : ds ≠ [] ∧ ds.all Char.isDigit
      · rw [if_pos hds] at h
        injection h with h
        by_cases h0 : canonDigits ds = ['0']
        · rw [if_pos h0] at h
          rw [← h]
          simp
        · rw [if_neg h0] at h
          rw [← h]
          simp
      · rw [if_neg hds] at h
        exact absurd h (by simp)
    · rw [if_neg hm] at h
      by_cases hall : (c0 :: ds).all Char.isDigit = true
      · rw [if_pos hall] at h
        injection h with h
        rw [← h]
        exact canonDigits_ne_nil _
      · rw [if_neg hall] at h
        exact absurd h (by simp)

/-! ### Characterizing equations for CombinationField (definitional) -/

theorem combStoredText_eq (fmt : String) (ev : Bool) (e : String) :
    CombinationField.storedText fmt ev e =
      if (CombinationField.sortedSelections fmt ev
            (if ev then e else escape e)).2 = true then
        some (CombinationField.joinText
          (CombinationField.sortedSelections fmt ev
            (if ev then e else escape e)).1)
      else none := rfl

theorem combFET_eq (fmt : String) (ev : Bool) (s : String) :
    CombinationField.formatEditorText fmt ev s =
      if (ChoiceField.splitText s).all
          (fun c => decide (c ∈ CombinationField.choiceList fmt ev)) = true then
        if ev then some s else some (unescape s)
      else none := rfl

theorem sortedSelections_of_split (fmt : String) (ev : Bool) (s : String)
    (q : String → Bool)
    (hsplit : ChoiceField.splitText s =
      (CombinationField.choiceList fmt ev).filter q) :
    CombinationField.sortedSelections fmt ev s =
      ((CombinationField.choiceList fmt ev).filter q, true) := by
  unfold CombinationField.sortedSelections
  simp only []
  rw [hsplit, filter_mem_filter]
  simp

/-! ## Claim C7 -/

/-- Claim C7, counterexample: the Combination field with format
a// / //b declares the two choices a/ and /b (each containing the
delimiter).  The editor input selecting both stores as a/////b, but
formatEditorText rejects that very stored text (re-splitting the join
yields a// and b, not the declared choices), so
storedText(formatEditorText(s)) raises instead of returning s. -/
theorem combination_roundtrip_counterexample :
    CombinationField.storedText "a// / //b" false "a// / //b" =
      some "a/////b" ∧
    CombinationField.formatEditorText "a// / //b" false "a/////b" = none ∧
    (CombinationField.formatEditorText "a// / //b" false "a/////b").bind
      (CombinationField.storedText "a// / //b" false) ≠ some "a/////b" :=
  ⟨rfl, rfl, by decide⟩

/-- Claim C7 (amended): for every field variant, storedText and
formatEditorText are mutually inverse up to the variant's own
normalization — identity for Text and HtmlText (which share TextField's
pair), line-break truncation for OneLineText, escape/unescape round-trip
for SpacedText, canonical numeric re-rendering for Number, the format's
token pair for Boolean, and membership-checked escape/unescape for
Choice and RegularExpression — and for Combination fields the laws hold
with the canonical declared-order re-serialization as normalization
provided the declared choices do not contain the delimiter character
(and, as the implementation guarantees for escaped choice lists, each
stored choice is escape-closed); a Combination field whose choices
contain the delimiter may reject its own stored text. -/
theorem field_roundtrip_laws :
    (∀ e : String,
      (TextField.storedText e).bind TextField.formatEditorText = some e ∧
      (TextField.formatEditorText e).bind TextField.storedText = some e) ∧
    (∀ e : String,
      (OneLineTextField.storedText e).bind OneLineTextField.formatEditorText =
        some (OneLineTextField.truncBr e)) ∧
    (∀ s : String, OneLineTextField.truncBr s = s →
      (OneLineTextField.formatEditorText s).bind OneLineTextField.storedText =
        some s) ∧
    (∀ e : String,
      (SpacedTextField.storedText e).bind SpacedTextField.formatEditorText =
        some e ∧
      (SpacedTextField.formatEditorText (escape e)).bind
        SpacedTextField.storedText = some (escape e)) ∧
    (∀ e s : String, NumberField.storedText e = some s →
      NumberField.formatEditorText s = some s ∧
      NumberField.storedText s = some s) ∧
    (∀ (fmt : String) (tt ff : List Char) (rest : List (List Char)),
      boolTokens fmt = tt :: ff :: rest → tt ≠ [] → ff ≠ [] → tt ≠ ff →
      ((BooleanField.storedText fmt ⟨tt⟩).bind
        (BooleanField.formatEditorText fmt) = some ⟨tt⟩) ∧
      ((BooleanField.storedText fmt ⟨ff⟩).bind
        (BooleanField.formatEditorText fmt) = some ⟨ff⟩) ∧
      (∀ e s : String, BooleanField.storedText fmt e = some s →
        (BooleanField.formatEditorText fmt s).bind
          (BooleanField.storedText fmt) = some s)) ∧
    (∀ (fmt : String) (ev : Bool) (e s : String),
      ChoiceField.storedText fmt ev e = some s →
      ChoiceField.formatEditorText fmt ev s = some e ∧
      (ChoiceField.formatEditorText fmt ev s).bind
        (ChoiceField.storedText fmt ev) = some s) ∧
    (∀ (fmt : String) (ev : Bool),
      (∀ c ∈ CombinationField.choiceList fmt ev, ('/' : Char) ∉ c.data) →
      (ev = false → ∀ c ∈ CombinationField.choiceList fmt ev,
        escape (unescape c) = c) →
      ∀ e s : String, CombinationField.storedText fmt ev e = some s →
        CombinationField.formatEditorText fmt ev s =
          some (if ev then s else unescape s) ∧
        CombinationField.storedText fmt ev (if ev then s else unescape s) =
          some s) ∧
    (∀ (toks : List RTok) (ev : Bool) (e s : String),
      RegularExpressionField.storedText toks ev e = some s →
      RegularExpressionField.formatEditorText toks ev s = some e ∧
      (RegularExpressionField.formatEditorText toks ev s).bind
        (RegularExpressionField.storedText toks ev) = some s) := by
  refine ⟨?_, ?_, ?_, ?_, ?_, ?_, ?_, ?_, ?_⟩
  · intro e
    exact ⟨rfl, rfl⟩
  · intro e
    rfl
  · intro s hs
    show OneLineTextField.storedText (OneLineTextField.truncBr s) = some s
    rw [hs]
    rfl
  · intro e
    constructor
    · show SpacedTextField.formatEditorText (escape e) = some e
      unfold SpacedTextField.formatEditorText
      rw [unescape_escape]
    · show (some (unescape (escape e))).bind SpacedTextField.storedText =
        some (escape e)
      rw [unescape_escape]
      rfl
  · intro e s h
    unfold NumberField.storedText at h
    by_cases he : e = ""
    · rw [if_pos he] at h
      injection h with h
      rw [← h]
      exact ⟨rfl, rfl⟩
    · rw [if_neg he] at h
      unfold numParse at h
      cases hc : numParseL e.data with
      | none =>
        rw [hc] at h
        exact absurd h (by simp)
      | some c =>
        rw [hc] at h
        simp only [Option.map_some'] at h
        injection h with h
        have hidem := numParseL_idem e.data c hc
        have hne := numParseL_ne_nil e.data c hc
        have hsd : s.data = c := by
          rw [← h]
        have hsne : s ≠ "" := by
          intro he2
          rw [he2] at hsd
          exact hne hsd.symm
        constructor
        · unfold NumberField.formatEditorText
          rw [if_neg hsne]
          unfold numParse
          rw [hsd, hidem]
          simp only [Option.map_some']
          rw [← h]
        · unfold NumberField.storedText
          rw [if_neg hsne]
          unfold numParse
          rw [hsd, hidem]
          simp only [Option.map_some']
          rw [← h]
  · intro fmt tt ff rest hfmt htt hff hneq
    have httne : (⟨tt⟩ : String) ≠ "" := fun he => htt (congrArg String.data he)
    have hffne : (⟨ff⟩ : String) ≠ "" := fun he => hff (congrArg String.data he)
    have hset_tt : boolSetFromStr ⟨tt⟩ fmt = some true := by
      unfold boolSetFromStr
      rw [hfmt]
      show (if (⟨tt⟩ : String).data = tt then some true
        else if (⟨tt⟩ : String).data = ff then some false else none) = some true
      rw [if_pos rfl]
    have hset_ff : boolSetFromStr ⟨ff⟩ fmt = some false := by
      unfold boolSetFromStr
      rw [hfmt]
      show (if (⟨ff⟩ : String).data = tt then some true
        else if (⟨ff⟩ : String).data = ff then some false else none) = some false
      rw [if_neg (fun he => hneq he.symm), if_pos rfl]
    have hbs_t : boolStr true fmt = some ⟨tt⟩ := by
      unfold boolStr
      rw [hfmt]
      rfl
    have hbs_f : boolStr false fmt = some ⟨ff⟩ := by
      unfold boolStr
      rw [hfmt]
      show some (if false then (⟨tt⟩ : String) else ⟨ff⟩) = some ⟨ff⟩
      rfl
    have hstore_tt : BooleanField.storedText fmt ⟨tt⟩ = some "true" := by
      unfold BooleanField.storedText
      rw [if_neg httne, hset_tt]
      rfl
    have hstore_ff : BooleanField.storedText fmt ⟨ff⟩ = some "false" := by
      unfold BooleanField.storedText
      rw [if_neg hffne, hset_ff]
      rfl
    have hfet_true : BooleanField.formatEditorText fmt "true" = some ⟨tt⟩ := by
      unfold BooleanField.formatEditorText
      rw [if_neg (by decide), show boolSpecFree "true" = some true from rfl]
      show boolStr true fmt = some ⟨tt⟩
      exact hbs_t
    have hfet_false : BooleanField.formatEditorText fmt "false" = some ⟨ff⟩ := by
      unfold BooleanField.formatEditorText
      rw [if_neg (by decide), show boolSpecFree "false" = some false from rfl]
      show boolStr false fmt = some ⟨ff⟩
      exact hbs_f
    refine ⟨?_, ?_, ?_⟩
    · rw [hstore_tt]
      show BooleanField.formatEditorText fmt "true" = some ⟨tt⟩
      exact hfet_true
    · rw [hstore_ff]
      show BooleanField.formatEditorText fmt "false" = some ⟨ff⟩
      exact hfet_false
    · intro e s h
      unfold BooleanField.storedText at h
      by_cases he : e = ""
      · rw [if_pos he] at h
        injection h with h
        rw [← h]
        rfl
      · rw [if_neg he] at h
        have hs : s = "true" ∨ s = "false" := by
          cases hsf : boolSetFromStr e fmt with
          | some b =>
            rw [hsf] at h
            injection h with h
            cases b
            · exact Or.inr h.symm
            · exact Or.inl h.symm
          | none =>
            rw [hsf] at h
            cases hsp : boolSpecFree e with
            | none =>
              rw [hsp] at h
              exact absurd h (by simp)
            | some b =>
              rw [hsp] at h
              simp only [Option.map_some'] at h
              injection h with h
              cases b
              · exact Or.inr h.symm
              · exact Or.inl h.symm
        rcases hs with hs | hs
        · rw [hs, hfet_true]
          show BooleanField.storedText fmt ⟨tt⟩ = some "true"
          exact hstore_tt
        · rw [hs, hfet_false]
          show BooleanField.storedText fmt ⟨ff⟩ = some "false"
          exact hstore_ff
  · intro fmt ev e s h
    unfold ChoiceField.storedText at h
    by_cases hg : (if ev then e else escape e) = "" ∨
        (if ev then e else escape e) ∈ ChoiceField.choices fmt ev
    · rw [if_pos hg] at h
      injection h with h
      have hfet : ChoiceField.formatEditorText fmt ev s = some e := by
        unfold ChoiceField.formatEditorText
        rw [if_neg (by
          rw [← h]
          rcases hg with hg | hg
          · intro hcon
            exact hcon.1 hg
          · intro hcon
            exact hcon.2 hg)]
        cases ev with
        | false =>
          rw [← h]
          show some (unescape (escape e)) = some e
          rw [unescape_escape]
        | true =>
          rw [← h]
          rfl
      refine ⟨hfet, ?_⟩
      rw [hfet]
      show ChoiceField.storedText fmt ev e = some s
      unfold ChoiceField.storedText
      rw [if_pos hg, h]
    · rw [if_neg hg] at h
      exact absurd h (by simp)
  · intro fmt ev hdf hesc e s h
    rw [combStoredText_eq] at h
    by_cases hv : (CombinationField.sortedSelections fmt ev
        (if ev then e else escape e)).2 = true
    · rw [if_pos hv] at h
      injection h with h
      have hres : (CombinationField.sortedSelections fmt ev
          (if ev then e else escape e)).1 =
          (CombinationField.choiceList fmt ev).filter
            (fun c => decide (c ∈ ChoiceField.splitText
              (if ev then e else escape e))) := rfl
      rw [hres] at h
      set q : String → Bool := fun c => decide (c ∈ ChoiceField.splitText
        (if ev then e else escape e)) with hq
      set result := (CombinationField.choiceList fmt ev).filter q with hresult
      have hmem : ∀ c ∈ result, c ∈ CombinationField.choiceList fmt ev := by
        intro c hc
        exact (List.mem_filter.mp hc).1
      have hprops : ∀ c ∈ result, c ≠ "" ∧ ('/' : Char) ∉ c.data ∧
          pyStrip c.data = c.data ∧ nulChar ∉ c.data := by
        intro c hc
        obtain ⟨h1, h2, h3⟩ := choiceList_mem_props fmt ev c (hmem c hc)
        exact ⟨h1, hdf c (hmem c hc), h2, h3⟩
      have hnd : result.Nodup := (choiceList_nodup fmt ev).filter _
      have hsplit : ChoiceField.splitText s = result := by
        rw [← h]
        exact splitText_joinText result hprops hnd
      have hfet : CombinationField.formatEditorText fmt ev s =
          some (if ev then s else unescape s) := by
        rw [combFET_eq]
        rw [if_pos (by
          rw [hsplit, List.all_eq_true]
          intro c hc
          simpa using hmem c hc)]
        cases ev
        · rfl
        · rfl
      refine ⟨hfet, ?_⟩
      have he2 : (if ev then (if ev then s else unescape s)
          else escape (if ev then s else unescape s)) = s := by
        cases hev : ev with
        | false =>
          simp only [Bool.false_eq_true, if_false]
          rw [← h]
          exact escape_unescape_joinText result
            (fun c hc => hesc hev c (hmem c hc))
            (fun c hc => (hprops c hc).2.1)
        | true => rfl
      rw [combStoredText_eq, he2,
        sortedSelections_of_split fmt ev s q (by rw [hsplit, hresult]),
        if_pos rfl]
      show some (CombinationField.joinText
        ((CombinationField.choiceList fmt ev).filter q)) = some s
      rw [← hresult, h]
    · rw [if_neg hv] at h
      exact absurd h (by simp)
  · intro toks ev e s h
    unfold RegularExpressionField.storedText at h
    by_cases hg : e = "" ∨ reMatch toks e = true
    · rw [if_pos hg] at h
      have hs : s = if ev then e else escape e := by
        cases ev
        · simp only [Bool.false_eq_true, if_false] at h ⊢
          injection h with h
          exact h.symm
        · simp only [if_true] at h ⊢
          injection h with h
          exact h.symm
      have hback : (if ev then s else unescape s) = e := by
        cases ev
        · simp only [Bool.false_eq_true, if_false] at hs ⊢
          rw [hs, unescape_escape]
        · simp only [if_true] at hs ⊢
          exact hs
      have hfet : RegularExpressionField.formatEditorText toks ev s =
          some e := by
        show (if (if ev then s else unescape s) = "" ∨
            reMatch toks (if ev then s else unescape s) = true then
            some (if ev then s else unescape s) else none) = some e
        rw [hback, if_pos hg]
      refine ⟨hfet, ?_⟩
      rw [hfet]
      show RegularExpressionField.storedText toks ev e = some s
      unfold RegularExpressionField.storedText
      rw [if_pos hg, hs]
      cases ev
      · rfl
      · rfl
    · rw [if_neg hg] at h
      exact absurd h (by simp)

/-- Witness for claim C7: the round-trip laws applied to concrete fields —
a Choice field with choices 1/2/3/4 on the value 2, the Combination field
with choices x/y/z on input z/x (its delimiter-free, escape-closed choice
list discharges the side conditions), and the Number field on editor
text 007. -/
theorem field_roundtrip_laws_witness :
    (ChoiceField.formatEditorText "1/2/3/4" false "2" = some "2" ∧
      (ChoiceField.formatEditorText "1/2/3/4" false "2").bind
        (ChoiceField.storedText "1/2/3/4" false) = some "2") ∧
    (CombinationField.formatEditorText "x/y/z" false "x/z" =
      some (if false then "x/z" else unescape "x/z") ∧
      CombinationField.storedText "x/y/z" false
        (if false then "x/z" else unescape "x/z") = some "x/z") ∧
    (NumberField.formatEditorText "7" = some "7" ∧
      NumberField.storedText "7" = some "7") := by
  refine ⟨?_, ?_, ?_⟩
  · exact field_roundtrip_laws.2.2.2.2.2.2.1 "1/2/3/4" false "2" "2" rfl
  · exact field_roundtrip_laws.2.2.2.2.2.2.2.1 "x/y/z" false (by decide)
      (fun _ => by decide) "z/x" "x/z" rfl
  · exact field_roundtrip_laws.2.2.2.2.1 "007" "7" rfl

end TreeLine